import Mathlib

/-!
bmpengine, `gray.c`: conversion of a 24-bit bitmap to grayscale.

A shallow embedding of the function `gray` of `src/gray.c` and the properties of it
that the specification states.

Modelling conventions.

* A file is the list of its bytes; the file system maps a path to the file stored there.
* A stream opened for reading is the list of the bytes not read yet; a stream opened for
  writing is the list of the bytes written so far.  These bytes are in the file once the
  stream is closed.  When `gray` returns with the stream still open, and so never flushed,
  the file holds only the first of them, as many as the environment says have left the
  buffer.
* The calls whose result `gray` tests and that can fail for reasons outside the program
  (`malloc`, `fopen` of the destination, `fwrite`) take their outcome from an environment
  `Env`.  A call of `fwrite` that fails is taken to write nothing.  The calls whose result
  `gray` ignores (`fgetc`, `fputc`, `fclose`, `free`) are taken to succeed, `fgetc` at the
  end of the file reading nothing.
* `def.h` is not part of the sources at hand.  The record layouts (14-byte file header,
  40-byte info header, 3-byte pixel stored blue, green, red), signed 32-bit `biWidth` and
  `biHeight`, and little-endian fields are the ones the specification gives.
* `double` is IEEE-754 binary64 with round-to-nearest-even, every operation rounded on its
  own; the values that occur are nonnegative multiples of `2^-60` below `2^9`, and are
  represented by their numerator over `2^60`.
* `size_t` is 64 bits wide.
-/

namespace Gray

/-! ## Bytes, files and the environment -/

/-- Modelled from the spec: the type `byte` of `def.h`, which is not among the sources, an
unsigned 8-bit value. -/
abbrev Byte := Fin 256

/-- The file system: the content stored at each path, `none` where no file can be read. -/
abbrev FS := String → Option (List Byte)

/-- The file system after `data` has been stored at `path`. -/
def FS.store (fs : FS) (path : String) (data : List Byte) : FS :=
  fun q => if q = path then some data else fs q

/-- Outcome of the library calls that `gray` checks and that depend on the machine. -/
structure Env where
  /-- Whether the `k`-th call of `malloc` (counted from 0 in program order) succeeds. -/
  mallocOk : Nat → Bool
  /-- Whether `fopen(path, "wb")` succeeds. -/
  canCreate : String → Bool
  /-- Whether the `k`-th call of `fwrite` (counted from 0 in program order) succeeds. -/
  fwriteOk : Nat → Bool
  /-- How many of the `n` bytes written to a stream that is neither flushed nor closed
  have left its buffer and reached the file when `gray` returns. -/
  flushed : Nat → Nat

/-- The environment that never fails, and in which no byte reaches a file before its
stream is closed. -/
def Env.always : Env := ⟨fun _ => true, fun _ => true, fun _ => true, fun _ => 0⟩

/-- The environment in which every call of `fwrite` fails and nothing else does. -/
def Env.writeFails : Env := ⟨fun _ => true, fun _ => true, fun _ => false, fun _ => 0⟩

/-- The value of `EXIT_SUCCESS`. -/
def EXIT_SUCCESS : Int := 0

/-- The value of `EXIT_FAILURE`. -/
def EXIT_FAILURE : Int := 1

/-- The diagnostics `gray` prints before it returns `EXIT_FAILURE`, named after the error
kinds of the specification. -/
inductive Diag where
  /-- The message "Unable to open file". -/
  | OpenError
  /-- The message "Not enough memory allocated". -/
  | AllocationError
  /-- The message "Information missing from file". -/
  | TruncatedError
  /-- The message "is not a bitmap file". -/
  | NotABitmapError
  /-- The message "File is compressed". -/
  | CompressedImageError
  /-- The message "is not a 24-bit image". -/
  | UnsupportedDepthError
  /-- The message "has a negative or zero pixel dimension". -/
  | InvalidDimensionsError
  /-- The message "Data omissions while writing in file". -/
  | WriteError
  deriving DecidableEq, Repr

/-- What a call of `gray` leaves behind. -/
structure Result where
  /-- The value returned to the caller. -/
  ret : Int
  /-- The diagnostic printed, `none` when nothing was printed. -/
  diag : Option Diag
  /-- The file system after the call. -/
  fs : FS
  /-- Whether the stream `fp_in` is still open when `gray` returns. -/
  fpInOpen : Bool
  /-- Whether the stream `fp_out` is still open when `gray` returns. -/
  fpOutOpen : Bool

/-! ## The C library calls -/

/-- The call `fread(buf, n, 1, fp)`: the `n` bytes read and the rest of the stream, or
`none` when the call returns less than 1 (no complete item of `n` bytes, or `n = 0`). -/
def fread (n : Nat) (stream : List Byte) : Option (List Byte × List Byte) :=
  if n = 0 then none
  else if stream.length < n then none
  else some (stream.take n, stream.drop n)

/-- The call `fgetc(fp)` with its result dropped: one byte is consumed, none at the end of
the file. -/
def fgetc (stream : List Byte) : List Byte := stream.drop 1

/-- The call `fputc(c, fp)`. -/
def fputc (c : Byte) (out : List Byte) : List Byte := out ++ [c]

/-! ## The header records -/

/-- Modelled from the spec: the size of `BITMAPFILEHEADER`, declared in `def.h`, which is
not among the sources; the specification gives the 14-byte layout `bfType`(2),
`bfSize`(4), reserved(4), `bfOffBits`(4). -/
def sizeofBITMAPFILEHEADER : Nat := 14

/-- Modelled from the spec: the size of `BITMAPINFOHEADER`, declared in `def.h`, which is
not among the sources; the specification gives the standard 40-byte layout. -/
def sizeofBITMAPINFOHEADER : Nat := 40

/-- Modelled from the spec: the size of `PIXEL`, declared in `def.h`, which is not among
the sources; the specification gives a 3-byte record blue, green, red with no padding. -/
def sizeofPIXEL : Nat := 3

/-- The number of values of `size_t`. -/
def sizeRange : Nat := 2 ^ 64

/-- The unsigned value of a little-endian field. -/
def littleEndian (bs : List Byte) : Nat := bs.foldr (fun b acc => b.val + 256 * acc) 0

/-- The unsigned value of the field of `len` bytes at offset `off` of a record. -/
def fieldAt (record : List Byte) (off len : Nat) : Nat :=
  littleEndian ((record.drop off).take len)

/-- The value of a 32-bit field read as a signed integer. -/
def toSigned32 (n : Nat) : Int := if n < 2 ^ 31 then (n : Int) else (n : Int) - 2 ^ 32

/-- Modelled from the spec: field `bfType1` of the file header (`def.h` is not among the
sources), the first magic byte. -/
def bfType1 (fileHeader : List Byte) : Nat := fieldAt fileHeader 0 1

/-- Modelled from the spec: field `bfType2` of the file header (`def.h` is not among the
sources), the second magic byte. -/
def bfType2 (fileHeader : List Byte) : Nat := fieldAt fileHeader 1 1

/-- Modelled from the spec: field `biWidth` of the info header (`def.h` is not among the
sources), 4 bytes, signed, after the 4 bytes of the header size. -/
def biWidth (infoHeader : List Byte) : Int := toSigned32 (fieldAt infoHeader 4 4)

/-- Modelled from the spec: field `biHeight` of the info header (`def.h` is not among the
sources), 4 bytes, signed, after `biWidth`. -/
def biHeight (infoHeader : List Byte) : Int := toSigned32 (fieldAt infoHeader 8 4)

/-- Modelled from the spec: field `biBitCount` of the info header (`def.h` is not among
the sources), 2 bytes, unsigned, after the 2 bytes of the planes. -/
def biBitCount (infoHeader : List Byte) : Nat := fieldAt infoHeader 14 2

/-- Modelled from the spec: field `biCompression` of the info header (`def.h` is not among
the sources), 4 bytes, unsigned, after `biBitCount`. -/
def biCompression (infoHeader : List Byte) : Nat := fieldAt infoHeader 16 4

/-! ## Arithmetic of `double` -/

/-- The binary64 values are held as multiples of `2 ^ (-fracBits)`. -/
def fracBits : Nat := 60

/-- Halve `x` until it has at most 53 bits, counting the halvings. -/
def excessBitsAux : Nat → Nat → Nat
  | 0, _ => 0
  | fuel + 1, x => if x < 2 ^ 53 then 0 else excessBitsAux fuel (x / 2) + 1

/-- The number of bits of `x` beyond the 53 bits of a binary64 significand. -/
def excessBits (x : Nat) : Nat := excessBitsAux x x

/-- The binary64 value nearest to `num / den`, ties to the even significand. -/
def roundNearestEven (num den : Nat) : Nat :=
  let s := excessBits (num / den)
  let d := den * 2 ^ s
  let m := num / d
  let r := num % d
  let m1 := if d < 2 * r ∨ (2 * r = d ∧ m % 2 = 1) then m + 1 else m
  m1 * 2 ^ s

/-- The conversion of an integer to `double`. -/
def ofNat (n : Nat) : Nat := n * 2 ^ fracBits

/-- The `double` denoted by the decimal constant `num / den`. -/
def lit (num den : Nat) : Nat := roundNearestEven (num * 2 ^ fracBits) den

/-- The product of two `double`s. -/
def mul (a b : Nat) : Nat := roundNearestEven (a * b) (2 ^ fracBits)

/-- The sum of two `double`s. -/
def add (a b : Nat) : Nat := roundNearestEven (a + b) 1

/-- The conversion of a `double` to `byte`: the fraction is dropped. -/
def toByte (x : Nat) : Byte := Fin.ofNat (x / 2 ^ fracBits)

/-! ## The transformation -/

/-- The `double` value of `red * 0.299 + green * 0.587 + blue * 0.114 + 0.5` for one pixel,
before its conversion to `byte`. -/
def luminanceValue (red green blue : Byte) : Nat :=
  add (add (add (mul (ofNat red.val) (lit 299 1000)) (mul (ofNat green.val) (lit 587 1000)))
    (mul (ofNat blue.val) (lit 114 1000))) (lit 1 2)

/-- The value assigned to `luminance` for one pixel:
`red * 0.299 + green * 0.587 + blue * 0.114 + 0.5`, converted to `byte`. -/
def luminance (red green blue : Byte) : Byte :=
  toByte (add (add (add (mul (ofNat red.val) (lit 299 1000)) (mul (ofNat green.val) (lit 587 1000)))
    (mul (ofNat blue.val) (lit 114 1000))) (lit 1 2))

/-- The loop over `j`: the first `n` pixels of a row (stored blue, green, red) are set to
their luminance. -/
def grayPixels : Nat → List Byte → List Byte
  | n + 1, blue :: green :: red :: rest =>
      luminance red green blue :: luminance red green blue :: luminance red green blue
        :: grayPixels n rest
  | _, row => row

/-- The number of padding bytes of a row of `width` pixels, as `gray` computes it. -/
def padding (width : Nat) : Nat :=
  let p := 4 - (((width * sizeofPIXEL) % sizeRange) &&& 3)
  if p = 4 then 0 else p

/-- The loop over `k`: each turn reads one byte of the source and writes one zero byte. -/
def padLoop : Nat → List Byte × List Byte → List Byte × List Byte
  | 0, s => s
  | k + 1, (src, out) => padLoop k (fgetc src, fputc 0 out)

/-- How a failing step leaves the two streams. -/
structure Failure where
  /-- The diagnostic printed. -/
  diag : Diag
  /-- Whether `fp_in` is left open. -/
  fpInOpen : Bool
  /-- Whether `fp_out` is left open. -/
  fpOutOpen : Bool
  deriving DecidableEq, Repr

/-- The loop over `i` with `n` rows still to convert: the bytes written to `fp_out` when it
ends, and the failure that ended it, if any. -/
def rowLoop (env : Env) (width pad : Nat) :
    Nat → Nat → List Byte → List Byte → List Byte × Option Failure
  | 0, _, _, out => (out, none)
  | n + 1, i, src, out =>
      if env.mallocOk (4 + i) = false then (out, some ⟨.AllocationError, true, true⟩)
      else
        match fread ((sizeofPIXEL * width) % sizeRange) src with
        | none => (out, some ⟨.TruncatedError, false, true⟩)
        | some (row, src1) =>
            if env.fwriteOk (2 + i) = false then (out, some ⟨.WriteError, true, false⟩)
            else
              let s := padLoop pad (src1, out ++ grayPixels width row)
              rowLoop env width pad n (i + 1) s.1 s.2

/-- The checks of the two headers, in the order `gray` makes them: the diagnostic of the
first check that fails, `none` when all pass.  The bytes compared with are the characters
B (66) and M (77). -/
def validate (fileHeader infoHeader : List Byte) : Option Diag :=
  if bfType1 fileHeader ≠ 66 ∨ bfType2 fileHeader ≠ 77 then some .NotABitmapError
  else if biCompression infoHeader ≠ 0 then some .CompressedImageError
  else if biBitCount infoHeader ≠ 24 then some .UnsupportedDepthError
  else if biWidth infoHeader ≤ 0 then some .InvalidDimensionsError
  else if biHeight infoHeader ≤ 0 then some .InvalidDimensionsError
  else none

/-- The content of the destination when `gray` returns, `out` being the bytes written to
`fp_out`: all of them when the stream has been closed, the part that has left the buffer
when it is still open. -/
def atReturn (env : Env) (stillOpen : Bool) (out : List Byte) : List Byte :=
  if stillOpen = true then out.take (env.flushed out.length) else out

/-- The function `gray`. -/
def gray (env : Env) (fs : FS) (filename : String) : Result :=
  match fs filename with
  | none => ⟨EXIT_FAILURE, some .OpenError, fs, false, false⟩
  | some src =>
  if env.mallocOk 0 = false then ⟨EXIT_FAILURE, some .AllocationError, fs, true, false⟩
  else if env.mallocOk 1 = false then ⟨EXIT_FAILURE, some .AllocationError, fs, true, false⟩
  else
  match fread sizeofBITMAPFILEHEADER src with
  | none => ⟨EXIT_FAILURE, some .TruncatedError, fs, false, false⟩
  | some (fileHeader, src1) =>
  match fread sizeofBITMAPINFOHEADER src1 with
  | none => ⟨EXIT_FAILURE, some .TruncatedError, fs, false, false⟩
  | some (infoHeader, src2) =>
  match validate fileHeader infoHeader with
  | some d => ⟨EXIT_FAILURE, some d, fs, true, false⟩
  | none =>
  if env.mallocOk 2 = false then ⟨EXIT_FAILURE, some .AllocationError, fs, true, false⟩
  else if env.canCreate ("new-" ++ filename) = false then
    ⟨EXIT_FAILURE, some .OpenError, fs, true, false⟩
  else if env.fwriteOk 0 = false then
    ⟨EXIT_FAILURE, some .WriteError, fs.store ("new-" ++ filename) [], true, false⟩
  else if env.fwriteOk 1 = false then
    ⟨EXIT_FAILURE, some .WriteError, fs.store ("new-" ++ filename) fileHeader, true, false⟩
  else if env.mallocOk 3 = false then
    ⟨EXIT_FAILURE, some .AllocationError,
      fs.store ("new-" ++ filename) (atReturn env true (fileHeader ++ infoHeader)), true, true⟩
  else
  match rowLoop env (biWidth infoHeader).toNat (padding (biWidth infoHeader).toNat)
      (biHeight infoHeader).toNat 0 src2 (fileHeader ++ infoHeader) with
  | (out, some f) =>
      ⟨EXIT_FAILURE, some f.diag, fs.store ("new-" ++ filename) (atReturn env f.fpOutOpen out),
        f.fpInOpen, f.fpOutOpen⟩
  | (out, none) => ⟨EXIT_SUCCESS, none, fs.store ("new-" ++ filename) out, false, false⟩

/-! ## Vocabulary of the statements -/

/-- The first 14 bytes of a file. -/
def fileHeaderOf (file : List Byte) : List Byte := file.take 14

/-- The 40 bytes of a file that follow its first 14. -/
def infoHeaderOf (file : List Byte) : List Byte := (file.drop 14).take 40

/-- The width stored in the info header of a file. -/
def imageWidth (file : List Byte) : Nat := (biWidth (infoHeaderOf file)).toNat

/-- The height stored in the info header of a file. -/
def imageHeight (file : List Byte) : Nat := (biHeight (infoHeaderOf file)).toNat

/-- The number of bytes of a row of pixels and its padding. -/
def stride (file : List Byte) : Nat := 3 * imageWidth file + padding (imageWidth file)

/-- A file that passes validation: both headers are there, the type is BM, the image is
not compressed, has 24 bits per pixel and positive width and height. -/
def Valid (file : List Byte) : Prop :=
  54 ≤ file.length ∧ bfType1 (fileHeaderOf file) = 66 ∧ bfType2 (fileHeaderOf file) = 77 ∧
    biCompression (infoHeaderOf file) = 0 ∧ biBitCount (infoHeaderOf file) = 24 ∧
    0 < biWidth (infoHeaderOf file) ∧ 0 < biHeight (infoHeaderOf file)

instance (file : List Byte) : Decidable (Valid file) := by
  unfold Valid
  infer_instance

/-- A file that holds the pixels of all its rows: after the 54 header bytes come all rows
but the last with their padding, and the pixels of the last row. -/
def HoldsPixelData (file : List Byte) : Prop :=
  54 + (imageHeight file - 1) * stride file + 3 * imageWidth file ≤ file.length

instance (file : List Byte) : Decidable (HoldsPixelData file) := by
  unfold HoldsPixelData
  infer_instance

/-- The environment lets a conversion of `rows` rows to `path` run to its end. -/
def Env.serves (env : Env) (path : String) (rows : Nat) : Prop :=
  (∀ k, k < 4 + rows → env.mallocOk k = true) ∧ env.canCreate path = true ∧
    (∀ k, k < 2 + rows → env.fwriteOk k = true)

/-- The bytes that `n` turns of the loop over `i` write when they all succeed. -/
def rowsOut (width pad : Nat) : Nat → List Byte → List Byte
  | 0, _ => []
  | n + 1, src =>
      grayPixels width (src.take (3 * width)) ++ List.replicate pad 0
        ++ rowsOut width pad n (src.drop (3 * width + pad))

/-- A stream of `len` bytes is long enough for `n` turns of the loop over `i`. -/
def holdsRows (width pad : Nat) : Nat → Nat → Prop
  | 0, _ => True
  | n + 1, len => 3 * width ≤ len ∧ holdsRows width pad n (len - (3 * width + pad))

/-- The content of the destination after a conversion that succeeds. -/
def grayImage (file : List Byte) : List Byte :=
  file.take 54 ++ rowsOut (imageWidth file) (padding (imageWidth file)) (imageHeight file)
    (file.drop 54)

/-- The checks of the specification in the order it gives, each with its error:
magic, compression, bit depth, width, height. -/
def checksInOrder (file : List Byte) : List (Bool × Diag) :=
  [(decide (bfType1 (fileHeaderOf file) ≠ 66 ∨ bfType2 (fileHeaderOf file) ≠ 77),
      .NotABitmapError),
   (decide (biCompression (infoHeaderOf file) ≠ 0), .CompressedImageError),
   (decide (biBitCount (infoHeaderOf file) ≠ 24), .UnsupportedDepthError),
   (decide (biWidth (infoHeaderOf file) ≤ 0), .InvalidDimensionsError),
   (decide (biHeight (infoHeaderOf file) ≤ 0), .InvalidDimensionsError)]

/-- The errors of the checks that fail, in the order of the specification. -/
def failingChecks (file : List Byte) : List Diag :=
  ((checksInOrder file).filter (fun c => c.1)).map (fun c => c.2)

/-- The call was rejected: it printed the diagnostic `d` and returned `EXIT_FAILURE`. -/
def Result.rejected (r : Result) (d : Diag) : Prop :=
  r.diag = some d ∧ r.ret = EXIT_FAILURE

/-- The pixel stored at offset `o` of `y` is the gray pixel of the one stored at offset `o`
of `x`: its blue, green and red bytes all hold the luminance of the pixel of `x`. -/
def GrayAt (x y : List Byte) (o : Nat) : Prop :=
  ∃ blue green red, x[o]? = some blue ∧ x[o + 1]? = some green ∧ x[o + 2]? = some red ∧
    y[o]? = some (luminance red green blue) ∧ y[o + 1]? = some (luminance red green blue) ∧
    y[o + 2]? = some (luminance red green blue)

/-- An offset of a file that holds a padding byte of one of its rows. -/
def isPaddingOffset (file : List Byte) (n : Nat) : Prop :=
  54 ≤ n ∧ (n - 54) / stride file < imageHeight file ∧
    3 * imageWidth file ≤ (n - 54) % stride file

/-! ## Sample files -/

/-- The `len` bytes of the little-endian field holding `n`. -/
def fieldBytes : Nat → Nat → List Byte
  | 0, _ => []
  | len + 1, n => Fin.ofNat n :: fieldBytes len (n / 256)

/-- The 54 bytes of a file header and an info header with the given type bytes, width,
height, bit count and compression; the fields `gray` does not read are zero. -/
def headers (type1 type2 : Byte) (width height bitCount compression : Nat) : List Byte :=
  [type1, type2] ++ fieldBytes 12 0
    ++ fieldBytes 4 40 ++ fieldBytes 4 width ++ fieldBytes 4 height ++ fieldBytes 2 1
    ++ fieldBytes 2 bitCount ++ fieldBytes 4 compression ++ fieldBytes 20 0

/-- A bitmap of width 1 and height 2; each row is followed by one padding byte, here
not zero. -/
def sampleImage : List Byte :=
  headers 66 77 1 2 24 0 ++ [12, 36, 0, 255, 250, 0, 0, 171]

/-- The bitmap `sampleImage` with other padding bytes. -/
def sampleImage2 : List Byte :=
  headers 66 77 1 2 24 0 ++ [12, 36, 0, 7, 250, 0, 0, 9]

/-- A file system holding `sampleImage` at `a.bmp` and an empty file at `empty.bmp`. -/
def sampleFS : FS := fun p =>
  if p = "a.bmp" then some sampleImage else if p = "empty.bmp" then some [] else none

/-- The file system `sampleFS` with `sampleImage2` at `a.bmp`. -/
def sampleFS2 : FS := sampleFS.store "a.bmp" sampleImage2

/-- The bitmap `sampleImage` cut after the first byte of its second row. -/
def truncatedImage : List Byte := sampleImage.take 59

/-- A bitmap of the given width and of height 2 whose pixel bytes all hold 200 and that
ends right after the pixels of its second row, without the padding of that row. -/
def paddingCase (width : Nat) : List Byte :=
  headers 66 77 width 2 24 0 ++ List.replicate (2 * (3 * width) + padding width) 200

/-- A file system holding only the file `file`, at `t.bmp`. -/
def single (file : List Byte) : FS := fun p => if p = "t.bmp" then some file else none

/-! ## Rounding of `double` -/

theorem excessBitsAux_le (fuel : Nat) : ∀ (x k : Nat), x < 2 ^ (53 + k) → excessBitsAux fuel x ≤ k := by
  induction fuel with
  | zero => intro x k _; simp [excessBitsAux]
  | succ f ih =>
    intro x k hx
    unfold excessBitsAux
    split
    · exact Nat.zero_le _
    · rename_i h53
      cases k with
      | zero => exact absurd hx h53
      | succ k =>
        have hlt : x / 2 < 2 ^ (53 + k) := by
          have e : 2 ^ (53 + (k + 1)) = 2 * 2 ^ (53 + k) := by
            rw [← Nat.add_assoc, Nat.pow_succ, Nat.mul_comm]
          rw [e] at hx
          omega
        have := ih (x / 2) k hlt
        omega

theorem roundNearestEven_one_bounds (x : Nat) (hx : x < 2 ^ 69) :
    x ≤ roundNearestEven x 1 + 2 ^ 16 ∧ roundNearestEven x 1 ≤ x + 2 ^ 16 := by
  have hs : excessBits x ≤ 16 := excessBitsAux_le x x 16 hx
  have hP : 2 ^ excessBits x ≤ 2 ^ 16 := Nat.pow_le_pow_right (by decide) hs
  have hP0 : 0 < 2 ^ excessBits x := Nat.two_pow_pos _
  simp only [roundNearestEven, Nat.div_one, Nat.one_mul]
  generalize 2 ^ excessBits x = P at hP hP0 ⊢
  have hdm := Nat.div_add_mod x P
  have hr := Nat.mod_lt x hP0
  have hcomm : P * (x / P) = x / P * P := Nat.mul_comm _ _
  split
  · rw [Nat.add_mul, Nat.one_mul]
    omega
  · omega

theorem add_bounds (a b : Nat) (h : a + b < 2 ^ 69) :
    a + b ≤ add a b + 2 ^ 16 ∧ add a b ≤ a + b + 2 ^ 16 :=
  roundNearestEven_one_bounds (a + b) h

theorem lit_half : lit 1 2 = 2 ^ 59 := by decide

/-- The constants of the luminance expression are the binary64 values
`0x1.322d0e5604189p-2`, `0x1.2c8b439581062p-1` and `0x1.d2f1a9fbe76c9p-4`. -/
theorem lit_values :
    lit 299 1000 = 0x1322d0e5604189 * 2 ^ 6 ∧ lit 587 1000 = 0x12c8b439581062 * 2 ^ 7 ∧
    lit 114 1000 = 0x1d2f1a9fbe76c9 * 2 ^ 4 := by
  decide

set_option maxRecDepth 100000 in
theorem mul_299_bounds : ∀ r : Byte,
    299 * r.val * 2 ^ 60 ≤ 1000 * mul (ofNat r.val) (lit 299 1000) + 1000 * 2 ^ 16 ∧
    1000 * mul (ofNat r.val) (lit 299 1000) ≤ 299 * r.val * 2 ^ 60 + 1000 * 2 ^ 16 := by
  decide

set_option maxRecDepth 100000 in
theorem mul_587_bounds : ∀ g : Byte,
    587 * g.val * 2 ^ 60 ≤ 1000 * mul (ofNat g.val) (lit 587 1000) + 1000 * 2 ^ 16 ∧
    1000 * mul (ofNat g.val) (lit 587 1000) ≤ 587 * g.val * 2 ^ 60 + 1000 * 2 ^ 16 := by
  decide

set_option maxRecDepth 100000 in
theorem mul_114_bounds : ∀ b : Byte,
    114 * b.val * 2 ^ 60 ≤ 1000 * mul (ofNat b.val) (lit 114 1000) + 1000 * 2 ^ 16 ∧
    1000 * mul (ofNat b.val) (lit 114 1000) ≤ 114 * b.val * 2 ^ 60 + 1000 * 2 ^ 16 := by
  decide


/-- The `double` of the luminance expression lies within `6000 * 2^16 / 2^60` thousandths
of the exact weighted sum plus one half. -/
theorem luminance_sum_bounds (r g b : Byte) :
    ∃ X : Nat, luminance r g b = toByte X ∧
      (299 * r.val + 587 * g.val + 114 * b.val + 500) * 2 ^ 60 ≤ 1000 * X + 6000 * 2 ^ 16 ∧
      1000 * X ≤ (299 * r.val + 587 * g.val + 114 * b.val + 500) * 2 ^ 60 + 6000 * 2 ^ 16 := by
  refine ⟨_, rfl, ?_⟩
  have hr := mul_299_bounds r
  have hg := mul_587_bounds g
  have hb := mul_114_bounds b
  have hrv := r.isLt
  have hgv := g.isLt
  have hbv := b.isLt
  rw [lit_half]
  generalize mul (ofNat r.val) (lit 299 1000) = R at hr ⊢
  generalize mul (ofNat g.val) (lit 587 1000) = G at hg ⊢
  generalize mul (ofNat b.val) (lit 114 1000) = B at hb ⊢
  have h1 := add_bounds R G (by norm_num at hr hg ⊢; omega)
  generalize add R G = T1 at h1 ⊢
  have h2 := add_bounds T1 B (by norm_num at hr hg hb h1 ⊢; omega)
  generalize add T1 B = T2 at h2 ⊢
  have h3 := add_bounds T2 (2 ^ 59) (by norm_num at hr hg hb h1 h2 ⊢; omega)
  generalize add T2 (2 ^ 59) = T3 at h3 ⊢
  norm_num at hr hg hb h1 h2 h3 ⊢
  omega

theorem toByte_val (X : Nat) : (toByte X).val = (X / 2 ^ 60) % 256 := rfl

theorem luminance_off_tie (r g b : Byte)
    (h : (299 * r.val + 587 * g.val + 114 * b.val) % 1000 ≠ 500) :
    (luminance r g b).val = (299 * r.val + 587 * g.val + 114 * b.val + 500) / 1000 := by
  obtain ⟨X, hX, h1, h2⟩ := luminance_sum_bounds r g b
  have hrv := r.isLt
  have hgv := g.isLt
  have hbv := b.isLt
  rw [hX, toByte_val]
  have hdm := Nat.div_add_mod (299 * r.val + 587 * g.val + 114 * b.val + 500) 1000
  have hm := Nat.mod_lt (299 * r.val + 587 * g.val + 114 * b.val + 500) (by decide : 0 < 1000)
  have ht : (299 * r.val + 587 * g.val + 114 * b.val + 500) % 1000 ≠ 0 := by omega
  generalize (299 * r.val + 587 * g.val + 114 * b.val + 500) / 1000 = k at hdm ⊢
  generalize (299 * r.val + 587 * g.val + 114 * b.val + 500) % 1000 = t at hdm hm ht
  have hk : k < 256 := by omega
  have hdiv : X / 2 ^ 60 = k := by
    apply Nat.div_eq_of_lt_le
    · rw [← hdm] at h1
      norm_num at h1 ⊢
      omega
    · rw [← hdm] at h2
      norm_num at h2 ⊢
      omega
  rw [hdiv]
  exact Nat.mod_eq_of_lt hk

theorem luminance_at_tie (r g b : Byte) :
    (luminance r g b).val = (299 * r.val + 587 * g.val + 114 * b.val + 500) / 1000 ∨
    (luminance r g b).val + 1 = (299 * r.val + 587 * g.val + 114 * b.val + 500) / 1000 := by
  by_cases h : (299 * r.val + 587 * g.val + 114 * b.val) % 1000 = 500
  · obtain ⟨X, hX, h1, h2⟩ := luminance_sum_bounds r g b
    have hrv := r.isLt
    have hgv := g.isLt
    have hbv := b.isLt
    rw [hX, toByte_val]
    have hdm := Nat.div_add_mod (299 * r.val + 587 * g.val + 114 * b.val + 500) 1000
    have ht : (299 * r.val + 587 * g.val + 114 * b.val + 500) % 1000 = 0 := by omega
    rw [ht] at hdm
    generalize (299 * r.val + 587 * g.val + 114 * b.val + 500) / 1000 = k at hdm ⊢
    have hk : k < 256 := by omega
    have hk1 : 1 ≤ k := by omega
    by_cases hlow : k * 2 ^ 60 ≤ X
    · left
      have hdiv : X / 2 ^ 60 = k := by
        apply Nat.div_eq_of_lt_le hlow
        rw [← hdm] at h2
        norm_num at h2 ⊢
        omega
      rw [hdiv]
      exact Nat.mod_eq_of_lt hk
    · right
      have hdiv : X / 2 ^ 60 = k - 1 := by
        apply Nat.div_eq_of_lt_le
        · rw [← hdm] at h1
          norm_num at h1 hlow ⊢
          omega
        · have e : k - 1 + 1 = k := by omega
          rw [e]
          omega
      rw [hdiv, Nat.mod_eq_of_lt (by omega)]
      omega
  · exact Or.inl (luminance_off_tie r g b h)

set_option maxRecDepth 100000 in
theorem luminance_gray : ∀ v : Byte, luminance v v v = v := by
  decide

/-! ## The streams -/

theorem fread_of_le {n : Nat} {s : List Byte} (h0 : 0 < n) (h : n ≤ s.length) :
    fread n s = some (s.take n, s.drop n) := by
  unfold fread
  rw [if_neg (by omega), if_neg (by omega)]

theorem fread_of_lt {n : Nat} {s : List Byte} (h : s.length < n) : fread n s = none := by
  simp [fread, h]

theorem fread_eq_some {n : Nat} {s a b : List Byte} (h : fread n s = some (a, b)) :
    0 < n ∧ n ≤ s.length ∧ a = s.take n ∧ b = s.drop n := by
  unfold fread at h
  split at h
  · exact absurd h (by simp)
  · split at h
    · exact absurd h (by simp)
    · simp only [Option.some.injEq, Prod.mk.injEq] at h
      exact ⟨by omega, by omega, h.1.symm, h.2.symm⟩

theorem padLoop_eq (k : Nat) : ∀ (src out : List Byte),
    padLoop k (src, out) = (src.drop k, out ++ List.replicate k 0) := by
  induction k with
  | zero => intro src out; simp [padLoop]
  | succ k ih =>
    intro src out
    simp only [padLoop, fgetc, fputc, ih, List.drop_drop, List.append_assoc,
      List.singleton_append, List.replicate_succ]
    rw [Nat.add_comm]

/-! ## The headers -/

theorem littleEndian_lt (bs : List Byte) : littleEndian bs < 256 ^ bs.length := by
  induction bs with
  | nil => simp [littleEndian]
  | cons b bs ih =>
    have hb := b.isLt
    simp only [littleEndian, List.foldr_cons, List.length_cons, Nat.pow_succ] at ih ⊢
    omega

theorem fieldAt_four_lt (record : List Byte) (off : Nat) : fieldAt record off 4 < 2 ^ 32 := by
  unfold fieldAt
  have h := littleEndian_lt ((record.drop off).take 4)
  have hl : ((record.drop off).take 4).length ≤ 4 := List.length_take_le _ _
  have : 256 ^ ((record.drop off).take 4).length ≤ 256 ^ 4 :=
    Nat.pow_le_pow_right (by decide) hl
  have e : (256 : Nat) ^ 4 = 2 ^ 32 := by decide
  omega

theorem toSigned32_toNat_lt {n : Nat} (h : n < 2 ^ 32) : (toSigned32 n).toNat < 2 ^ 31 := by
  unfold toSigned32
  split
  · simpa using ‹n < 2 ^ 31›
  · have : (n : Int) - 2 ^ 32 < 0 := by
      have : (n : Int) < 2 ^ 32 := by exact_mod_cast h
      omega
    rw [Int.toNat_eq_zero.mpr (by omega)]
    decide

theorem imageWidth_lt (file : List Byte) : imageWidth file < 2 ^ 31 :=
  toSigned32_toNat_lt (fieldAt_four_lt _ _)

theorem imageHeight_lt (file : List Byte) : imageHeight file < 2 ^ 31 :=
  toSigned32_toNat_lt (fieldAt_four_lt _ _)

theorem rowSize_eq {width : Nat} (h : width < 2 ^ 31) :
    (sizeofPIXEL * width) % sizeRange = 3 * width := by
  unfold sizeofPIXEL sizeRange
  apply Nat.mod_eq_of_lt
  norm_num at h ⊢
  omega

theorem validate_eq_none_iff (fh ih : List Byte) :
    validate fh ih = none ↔
      bfType1 fh = 66 ∧ bfType2 fh = 77 ∧ biCompression ih = 0 ∧ biBitCount ih = 24 ∧
        0 < biWidth ih ∧ 0 < biHeight ih := by
  unfold validate
  constructor
  · intro h
    split at h
    · exact absurd h (by simp)
    · split at h
      · exact absurd h (by simp)
      · split at h
        · exact absurd h (by simp)
        · split at h
          · exact absurd h (by simp)
          · split at h
            · exact absurd h (by simp)
            · refine ⟨?_, ?_, ?_, ?_, ?_, ?_⟩ <;> omega
  · rintro ⟨h1, h2, h3, h4, h5, h6⟩
    rw [if_neg (by omega), if_neg (by omega), if_neg (by omega), if_neg (by omega),
      if_neg (by omega)]

/-! ## The loop over the pixels of a row -/

theorem grayPixels_length : ∀ (n : Nat) (row : List Byte),
    (grayPixels n row).length = row.length
  | 0, row => by simp [grayPixels]
  | n + 1, [] => by simp [grayPixels]
  | n + 1, [_] => by simp [grayPixels]
  | n + 1, [_, _] => by simp [grayPixels]
  | n + 1, _ :: _ :: _ :: rest => by simp [grayPixels, grayPixels_length n rest]

theorem grayPixels_pixel : ∀ (n : Nat) (row : List Byte) (j : Nat), j < n →
    3 * (j + 1) ≤ row.length →
    ∃ b g r, row[3 * j]? = some b ∧ row[3 * j + 1]? = some g ∧ row[3 * j + 2]? = some r ∧
      (grayPixels n row)[3 * j]? = some (luminance r g b) ∧
      (grayPixels n row)[3 * j + 1]? = some (luminance r g b) ∧
      (grayPixels n row)[3 * j + 2]? = some (luminance r g b)
  | 0, _, j, hj, _ => absurd hj (Nat.not_lt_zero j)
  | n + 1, [], j, _, hl => by simp at hl
  | n + 1, [_], j, _, hl => by simp at hl; omega
  | n + 1, [_, _], j, _, hl => by simp at hl; omega
  | n + 1, b :: g :: r :: rest, 0, _, _ => ⟨b, g, r, by simp [grayPixels]⟩
  | n + 1, b :: g :: r :: rest, j + 1, hj, hl => by
    have hl2 : 3 * (j + 1) ≤ rest.length := by simp at hl; omega
    obtain ⟨b2, g2, r2, h1, h2, h3, h4, h5, h6⟩ :=
      grayPixels_pixel n rest j (by omega) hl2
    refine ⟨b2, g2, r2, ?_⟩
    have e0 : 3 * (j + 1) = 3 * j + 1 + 1 + 1 := by omega
    have e1 : 3 * (j + 1) + 1 = 3 * j + 1 + 1 + 1 + 1 := by omega
    have e2 : 3 * (j + 1) + 2 = 3 * j + 2 + 1 + 1 + 1 := by omega
    simp only [grayPixels, e0, e1, e2, List.getElem?_cons_succ]
    exact ⟨h1, h2, h3, h4, h5, h6⟩

theorem grayPixels_idem (hl : ∀ v : Byte, luminance v v v = v) : ∀ (n : Nat) (row : List Byte),
    grayPixels n (grayPixels n row) = grayPixels n row
  | 0, row => by simp [grayPixels]
  | n + 1, [] => by simp [grayPixels]
  | n + 1, [_] => by simp [grayPixels]
  | n + 1, [_, _] => by simp [grayPixels]
  | n + 1, _ :: _ :: _ :: rest => by simp [grayPixels, hl, grayPixels_idem hl n rest]

/-! ## The loop over the rows -/

theorem holdsRows_iff {width pad : Nat} (hw : 0 < width) : ∀ (n len : Nat),
    holdsRows width pad n len ↔ n = 0 ∨ (n - 1) * (3 * width + pad) + 3 * width ≤ len := by
  intro n
  induction n with
  | zero => intro len; simp [holdsRows]
  | succ n ih =>
    intro len
    simp only [holdsRows, ih, Nat.add_sub_cancel]
    cases n with
    | zero => simp
    | succ m =>
      simp only [Nat.add_sub_cancel, Nat.add_mul, Nat.one_mul]
      generalize m * (3 * width) = a
      generalize m * pad = c
      constructor
      · rintro ⟨h1, h2⟩
        right
        rcases h2 with h2 | h2
        · omega
        · omega
      · rintro (h | h)
        · omega
        · exact ⟨by omega, Or.inr (by omega)⟩

theorem rowLoop_ok {env : Env} {width pad : Nat} (hw : 0 < width)
    (hsz : (sizeofPIXEL * width) % sizeRange = 3 * width) : ∀ (n i : Nat) (src out : List Byte),
    (∀ k, k < n → env.mallocOk (4 + i + k) = true ∧ env.fwriteOk (2 + i + k) = true) →
    holdsRows width pad n src.length →
    rowLoop env width pad n i src out = (out ++ rowsOut width pad n src, none) := by
  intro n
  induction n with
  | zero => intro i src out _ _; simp [rowLoop, rowsOut]
  | succ n ih =>
    intro i src out henv hlen
    obtain ⟨hm, hf⟩ := henv 0 (Nat.succ_pos n)
    obtain ⟨h3, hrest⟩ := hlen
    simp only [Nat.add_zero] at hm hf
    have hread := @fread_of_le (3 * width) src (by omega) h3
    simp only [rowLoop, hm, hf, hsz, hread, padLoop_eq, List.drop_drop]
    simp only [Bool.true_eq_false, if_false]
    rw [ih (i + 1) (src.drop (3 * width + pad)) _ ?_ ?_]
    · simp [rowsOut, List.append_assoc]
    · intro k hk
      have := henv (k + 1) (by omega)
      have e1 : 4 + (i + 1) + k = 4 + i + (k + 1) := by omega
      have e2 : 2 + (i + 1) + k = 2 + i + (k + 1) := by omega
      rw [e1, e2]
      exact this
    · rw [List.length_drop]
      exact hrest

theorem rowLoop_none {env : Env} {width pad : Nat}
    (hsz : (sizeofPIXEL * width) % sizeRange = 3 * width) : ∀ (n i : Nat) (src out : List Byte),
    (rowLoop env width pad n i src out).2 = none →
    (∀ k, k < n → env.mallocOk (4 + i + k) = true ∧ env.fwriteOk (2 + i + k) = true) ∧
    holdsRows width pad n src.length := by
  intro n
  induction n with
  | zero => intro i src out _; exact ⟨fun k hk => absurd hk (Nat.not_lt_zero k), trivial⟩
  | succ n ih =>
    intro i src out h
    simp only [rowLoop, hsz] at h
    split at h
    · exact absurd h (by simp)
    · rename_i hm
      split at h
      · exact absurd h (by simp)
      · rename_i row src1 hread
        split at h
        · exact absurd h (by simp)
        · rename_i hf
          obtain ⟨_, h3, _, hsrc1⟩ := fread_eq_some hread
          simp only [padLoop_eq] at h
          obtain ⟨henv, hrows⟩ := ih _ _ _ h
          subst hsrc1
          simp only [List.drop_drop, List.length_drop] at hrows
          refine ⟨?_, h3, ?_⟩
          · intro k hk
            cases k with
            | zero => simp only [Nat.add_zero]; exact ⟨by simpa using hm, by simpa using hf⟩
            | succ k =>
              have := henv k (by omega)
              have e1 : 4 + (i + 1) + k = 4 + i + (k + 1) := by omega
              have e2 : 2 + (i + 1) + k = 2 + i + (k + 1) := by omega
              rw [e1, e2] at this
              exact this
          · exact hrows

theorem rowLoop_extends (env : Env) (width pad : Nat) : ∀ (n i : Nat) (src out : List Byte),
    ∃ t, (rowLoop env width pad n i src out).1 = out ++ t := by
  intro n
  induction n with
  | zero => intro i src out; exact ⟨[], by simp [rowLoop]⟩
  | succ n ih =>
    intro i src out
    simp only [rowLoop]
    split
    · exact ⟨[], by simp⟩
    · split
      · exact ⟨[], by simp⟩
      · rename_i row src1 _
        split
        · exact ⟨[], by simp⟩
        · simp only [padLoop_eq]
          obtain ⟨t, ht⟩ := ih (i + 1) (List.drop pad src1)
            (out ++ grayPixels width row ++ List.replicate pad 0)
          exact ⟨_, by rw [ht, List.append_assoc, List.append_assoc]⟩

theorem rowsOut_row_length (width pad : Nat) (src : List Byte) (h3 : 3 * width ≤ src.length) :
    (grayPixels width (src.take (3 * width)) ++ List.replicate pad (0 : Byte)).length
      = 3 * width + pad := by
  simp [grayPixels_length, Nat.min_eq_left h3]

theorem getElem?_append_add (A R : List Byte) (S m : Nat) (hS : A.length = S) :
    (A ++ R)[S + m]? = R[m]? := by
  rw [List.getElem?_append_right (by omega), hS, Nat.add_sub_cancel_left]

theorem rowsOut_length (width pad : Nat) : ∀ (n : Nat) (src : List Byte),
    holdsRows width pad n src.length →
    (rowsOut width pad n src).length = n * (3 * width + pad) := by
  intro n
  induction n with
  | zero => intro src _; simp [rowsOut]
  | succ n ih =>
    intro src h
    obtain ⟨h3, hrest⟩ := h
    have hr := ih (src.drop (3 * width + pad)) (by rw [List.length_drop]; exact hrest)
    have hS := rowsOut_row_length width pad src h3
    rw [rowsOut, List.length_append, hS, hr, Nat.succ_mul n (3 * width + pad)]
    omega

theorem rowsOut_pixel (width pad : Nat) : ∀ (n : Nat) (src : List Byte) (i j : Nat),
    i < n → j < width → holdsRows width pad n src.length →
    ∃ b g r, src[i * (3 * width + pad) + 3 * j]? = some b ∧
      src[i * (3 * width + pad) + 3 * j + 1]? = some g ∧
      src[i * (3 * width + pad) + 3 * j + 2]? = some r ∧
      (rowsOut width pad n src)[i * (3 * width + pad) + 3 * j]? = some (luminance r g b) ∧
      (rowsOut width pad n src)[i * (3 * width + pad) + 3 * j + 1]? = some (luminance r g b) ∧
      (rowsOut width pad n src)[i * (3 * width + pad) + 3 * j + 2]? = some (luminance r g b) := by
  intro n
  induction n with
  | zero => intro src i j hi; exact absurd hi (Nat.not_lt_zero i)
  | succ n ih =>
    intro src i j hi hj h
    obtain ⟨h3, hrest⟩ := h
    cases i with
    | zero =>
      obtain ⟨b, g, r, h1, h2, h3', h4, h5, h6⟩ :=
        grayPixels_pixel width (src.take (3 * width)) j hj
          (by rw [List.length_take, Nat.min_eq_left h3]; omega)
      have hA : (grayPixels width (src.take (3 * width))).length = 3 * width := by
        rw [grayPixels_length, List.length_take, Nat.min_eq_left h3]
      refine ⟨b, g, r, ?_⟩
      simp only [Nat.zero_mul, Nat.zero_add, rowsOut, List.append_assoc]
      rw [List.getElem?_take_of_lt (by omega)] at h1 h2 h3'
      rw [List.getElem?_append_left (by omega), List.getElem?_append_left (by omega),
        List.getElem?_append_left (by omega)]
      exact ⟨h1, h2, h3', h4, h5, h6⟩
    | succ i =>
      obtain ⟨b, g, r, h1, h2, h3', h4, h5, h6⟩ :=
        ih (src.drop (3 * width + pad)) i j (by omega) hj
          (by rw [List.length_drop]; exact hrest)
      refine ⟨b, g, r, ?_⟩
      rw [List.getElem?_drop] at h1 h2 h3'
      have hS := rowsOut_row_length width pad src h3
      have e0 : (i + 1) * (3 * width + pad) + 3 * j
          = (3 * width + pad) + (i * (3 * width + pad) + 3 * j) := by
        rw [Nat.succ_mul i (3 * width + pad)]; omega
      have e1 : (i + 1) * (3 * width + pad) + 3 * j + 1
          = (3 * width + pad) + (i * (3 * width + pad) + 3 * j + 1) := by
        rw [Nat.succ_mul i (3 * width + pad)]; omega
      have e2 : (i + 1) * (3 * width + pad) + 3 * j + 2
          = (3 * width + pad) + (i * (3 * width + pad) + 3 * j + 2) := by
        rw [Nat.succ_mul i (3 * width + pad)]; omega
      rw [e1, e2, e0, rowsOut, getElem?_append_add _ _ _ _ hS, getElem?_append_add _ _ _ _ hS,
        getElem?_append_add _ _ _ _ hS]
      exact ⟨h1, h2, h3', h4, h5, h6⟩

theorem rowsOut_pad (width pad : Nat) : ∀ (n : Nat) (src : List Byte) (i k : Nat),
    i < n → k < pad → holdsRows width pad n src.length →
    (rowsOut width pad n src)[i * (3 * width + pad) + 3 * width + k]? = some 0 := by
  intro n
  induction n with
  | zero => intro src i k hi; exact absurd hi (Nat.not_lt_zero i)
  | succ n ih =>
    intro src i k hi hk h
    obtain ⟨h3, hrest⟩ := h
    have hA : (grayPixels width (src.take (3 * width))).length = 3 * width := by
      rw [grayPixels_length, List.length_take, Nat.min_eq_left h3]
    have hS := rowsOut_row_length width pad src h3
    cases i with
    | zero =>
      simp only [Nat.zero_mul, Nat.zero_add, rowsOut]
      rw [List.getElem?_append_left (by omega), getElem?_append_add _ _ _ _ hA,
        List.getElem?_replicate, if_pos hk]
    | succ i =>
      have h4 := ih (src.drop (3 * width + pad)) i k (by omega) hk
        (by rw [List.length_drop]; exact hrest)
      have e0 : (i + 1) * (3 * width + pad) + 3 * width + k
          = (3 * width + pad) + (i * (3 * width + pad) + 3 * width + k) := by
        rw [Nat.succ_mul i (3 * width + pad)]; omega
      rw [e0, rowsOut, getElem?_append_add _ _ _ _ hS]
      exact h4

theorem rowsOut_idem (hl : ∀ v : Byte, luminance v v v = v) (width pad : Nat) :
    ∀ (n : Nat) (src : List Byte), holdsRows width pad n src.length →
    rowsOut width pad n (rowsOut width pad n src) = rowsOut width pad n src := by
  intro n
  induction n with
  | zero => intro src _; simp [rowsOut]
  | succ n ih =>
    intro src h
    obtain ⟨h3, hrest⟩ := h
    have hA : (grayPixels width (src.take (3 * width))).length = 3 * width := by
      rw [grayPixels_length, List.length_take, Nat.min_eq_left h3]
    have hS := rowsOut_row_length width pad src h3
    have hr := ih (src.drop (3 * width + pad)) (by rw [List.length_drop]; exact hrest)
    have e : rowsOut width pad (n + 1) src
        = grayPixels width (src.take (3 * width)) ++ List.replicate pad 0
          ++ rowsOut width pad n (src.drop (3 * width + pad)) := rfl
    rw [e]
    generalize rowsOut width pad n (src.drop (3 * width + pad)) = R at hr ⊢
    have hidem : grayPixels width (grayPixels width (src.take (3 * width)))
        = grayPixels width (src.take (3 * width)) := grayPixels_idem hl _ _
    generalize grayPixels width (src.take (3 * width)) = A at hA hS hidem ⊢
    have htake : List.take (3 * width) (A ++ List.replicate pad 0 ++ R) = A := by
      rw [List.append_assoc]
      exact List.take_left' hA
    have hdrop : List.drop (3 * width + pad) (A ++ List.replicate pad 0 ++ R) = R :=
      List.drop_left' hS
    simp only [rowsOut, htake, hdrop, hidem, hr]

theorem rowsOut_congr {width pad : Nat} (hw : 0 < width) : ∀ (n : Nat) (src src2 : List Byte),
    (∀ m, m / (3 * width + pad) < n → m % (3 * width + pad) < 3 * width →
      src[m]? = src2[m]?) →
    rowsOut width pad n src = rowsOut width pad n src2 := by
  intro n
  induction n with
  | zero => intro src src2 _; simp [rowsOut]
  | succ n ih =>
    intro src src2 h
    have hS : 0 < 3 * width + pad := by omega
    have htake : src.take (3 * width) = src2.take (3 * width) := by
      apply List.ext_getElem?
      intro m
      rw [List.getElem?_take, List.getElem?_take]
      split
      · apply h m
        · rw [Nat.div_eq_of_lt (by omega)]; omega
        · rw [Nat.mod_eq_of_lt (by omega)]; omega
      · rfl
    have hdrop := ih (src.drop (3 * width + pad)) (src2.drop (3 * width + pad)) (by
      intro m h1 h2
      rw [List.getElem?_drop, List.getElem?_drop]
      apply h
      · rw [Nat.add_div_left _ hS]; omega
      · rw [Nat.add_mod_left]; exact h2)
    rw [rowsOut, rowsOut, htake, hdrop]

/-! ## The function `gray` -/

theorem read_headers (x : List Byte) (h : 54 ≤ x.length) :
    fread sizeofBITMAPFILEHEADER x = some (fileHeaderOf x, x.drop 14) ∧
    fread sizeofBITMAPINFOHEADER (x.drop 14) = some (infoHeaderOf x, x.drop 54) ∧
    fileHeaderOf x ++ infoHeaderOf x = x.take 54 := by
  refine ⟨?_, ?_, ?_⟩
  · exact fread_of_le (by decide) (by unfold sizeofBITMAPFILEHEADER; omega)
  · have := @fread_of_le sizeofBITMAPINFOHEADER (x.drop 14) (by decide)
      (by rw [List.length_drop]; unfold sizeofBITMAPINFOHEADER; omega)
    rw [this, List.drop_drop]
    rfl
  · unfold fileHeaderOf infoHeaderOf
    exact (List.take_add x 14 40).symm

theorem headers_short (x : List Byte) (h : x.length < 54) :
    fread sizeofBITMAPFILEHEADER x = none ∨
    ∃ fh src1, fread sizeofBITMAPFILEHEADER x = some (fh, src1) ∧
      fread sizeofBITMAPINFOHEADER src1 = none := by
  by_cases h14 : x.length < 14
  · exact Or.inl (fread_of_lt h14)
  · right
    refine ⟨_, _, fread_of_le (by decide) (by unfold sizeofBITMAPFILEHEADER; omega), ?_⟩
    apply fread_of_lt
    rw [List.length_drop]
    unfold sizeofBITMAPFILEHEADER sizeofBITMAPINFOHEADER
    omega

theorem valid_iff (x : List Byte) :
    Valid x ↔ 54 ≤ x.length ∧ validate (fileHeaderOf x) (infoHeaderOf x) = none := by
  rw [validate_eq_none_iff]
  rfl

theorem holdsPixelData_iff {x : List Byte} (hv : Valid x) :
    HoldsPixelData x ↔
      holdsRows (imageWidth x) (padding (imageWidth x)) (imageHeight x) (x.drop 54).length := by
  obtain ⟨h54, _, _, _, _, hw, hh⟩ := hv
  have hw2 : 0 < imageWidth x := by unfold imageWidth; omega
  have hh2 : 0 < imageHeight x := by unfold imageHeight; omega
  rw [holdsRows_iff hw2, List.length_drop]
  unfold HoldsPixelData stride
  generalize (imageHeight x - 1) * (3 * imageWidth x + padding (imageWidth x)) = a
  omega

theorem serves_rows {env : Env} {path : String} {rows : Nat} (h : env.serves path rows) :
    ∀ k, k < rows → env.mallocOk (4 + 0 + k) = true ∧ env.fwriteOk (2 + 0 + k) = true := by
  intro k hk
  exact ⟨h.1 _ (by omega), h.2.2 _ (by omega)⟩

theorem gray_of_serves (env : Env) (fs : FS) (p : String) (x : List Byte)
    (hx : fs p = some x) (hv : Valid x) (hd : HoldsPixelData x)
    (henv : env.serves ("new-" ++ p) (imageHeight x)) :
    gray env fs p
      = ⟨EXIT_SUCCESS, none, fs.store ("new-" ++ p) (grayImage x), false, false⟩ := by
  have hrows := (holdsPixelData_iff hv).mp hd
  obtain ⟨h54, hval⟩ := (valid_iff x).mp hv
  obtain ⟨hr1, hr2, hcat⟩ := read_headers x h54
  have hw : 0 < imageWidth x := by
    have := hv.2.2.2.2.2.1
    unfold imageWidth
    omega
  have hloop := @rowLoop_ok env (imageWidth x) (padding (imageWidth x)) hw
    (rowSize_eq (imageWidth_lt x)) (imageHeight x) 0 (x.drop 54) (x.take 54)
    (serves_rows henv) hrows
  have m0 := henv.1 0 (by omega)
  have m1 := henv.1 1 (by omega)
  have m2 := henv.1 2 (by omega)
  have m3 := henv.1 3 (by omega)
  have w0 := henv.2.2 0 (by omega)
  have w1 := henv.2.2 1 (by omega)
  have hc := henv.2.1
  unfold imageWidth imageHeight at hloop
  simp only [gray, hx, hr1, hr2, hval, hcat, m0, m1, m2, m3, w0, w1, hc, hloop]
  rfl

theorem gray_success (env : Env) (fs : FS) (p : String)
    (h : (gray env fs p).ret = EXIT_SUCCESS) :
    ∃ x, fs p = some x ∧ Valid x ∧ HoldsPixelData x ∧
      env.serves ("new-" ++ p) (imageHeight x) := by
  have hne : EXIT_FAILURE ≠ EXIT_SUCCESS := by decide
  unfold gray at h
  split at h
  · exact absurd h hne
  rename_i x hx
  refine ⟨x, hx, ?_⟩
  split at h
  · exact absurd h hne
  rename_i m0
  split at h
  · exact absurd h hne
  rename_i m1
  split at h
  · exact absurd h hne
  rename_i fh src1 hr1
  split at h
  · exact absurd h hne
  rename_i ih src2 hr2
  split at h
  · exact absurd h hne
  rename_i hval
  split at h
  · exact absurd h hne
  rename_i m2
  split at h
  · exact absurd h hne
  rename_i hc
  split at h
  · exact absurd h hne
  rename_i w0
  split at h
  · exact absurd h hne
  rename_i w1
  split at h
  · exact absurd h hne
  rename_i m3
  split at h
  · exact absurd h hne
  rename_i out hloop
  obtain ⟨_, h14, hfh, hs1⟩ := fread_eq_some hr1
  obtain ⟨_, h40, hih, hs2⟩ := fread_eq_some hr2
  subst hs1
  rw [List.length_drop] at h40
  have h54 : 54 ≤ x.length := by
    unfold sizeofBITMAPFILEHEADER at h14
    unfold sizeofBITMAPINFOHEADER sizeofBITMAPFILEHEADER at h40
    omega
  have hfh2 : fh = fileHeaderOf x := hfh
  have hih2 : ih = infoHeaderOf x := hih
  subst hfh2 hih2
  have hv : Valid x := (valid_iff x).mpr ⟨h54, hval⟩
  have hsnd : (rowLoop env (imageWidth x) (padding (imageWidth x)) (imageHeight x) 0 src2
      (fileHeaderOf x ++ infoHeaderOf x)).2 = none := by
    unfold imageWidth imageHeight
    rw [hloop]
  obtain ⟨hsv, hrows⟩ := rowLoop_none (rowSize_eq (imageWidth_lt x)) _ _ _ _ hsnd
  have hs2b : src2 = x.drop 54 := by
    rw [hs2, List.drop_drop]
    rfl
  subst hs2b
  refine ⟨hv, (holdsPixelData_iff hv).mpr hrows, ?_, ?_, ?_⟩
  · intro k hk
    by_cases h4 : k < 4
    · have : k = 0 ∨ k = 1 ∨ k = 2 ∨ k = 3 := by omega
      rcases this with e | e | e | e <;> subst e <;> simp_all
    · have := (hsv (k - 4) (by omega)).1
      have e : 4 + 0 + (k - 4) = k := by omega
      rw [e] at this
      exact this
  · simpa using hc
  · intro k hk
    by_cases h2 : k < 2
    · have : k = 0 ∨ k = 1 := by omega
      rcases this with e | e <;> subst e <;> simp_all
    · have := (hsv (k - 2) (by omega)).2
      have e : 2 + 0 + (k - 2) = k := by omega
      rw [e] at this
      exact this

/-! ## The file system and the headers of a converted file -/

theorem store_same (fs : FS) (path : String) (data : List Byte) :
    (fs.store path data) path = some data := by
  simp [FS.store]

theorem headers_congr {x z : List Byte} (h : z.take 54 = x.take 54) :
    fileHeaderOf z = fileHeaderOf x ∧ infoHeaderOf z = infoHeaderOf x := by
  have hn : ∀ n, n < 54 → z[n]? = x[n]? := by
    intro n hn
    rw [← List.getElem?_take_of_lt hn, h, List.getElem?_take_of_lt hn]
  constructor
  · apply List.ext_getElem?
    intro n
    unfold fileHeaderOf
    rw [List.getElem?_take, List.getElem?_take]
    split
    · exact hn n (by omega)
    · rfl
  · apply List.ext_getElem?
    intro n
    unfold infoHeaderOf
    rw [List.getElem?_take, List.getElem?_take]
    split
    · rw [List.getElem?_drop, List.getElem?_drop]
      exact hn _ (by omega)
    · rfl

theorem grayImage_take (x : List Byte) (h : 54 ≤ x.length) :
    (grayImage x).take 54 = x.take 54 := by
  unfold grayImage
  exact List.take_left' (by rw [List.length_take, Nat.min_eq_left h])

theorem grayImage_drop (x : List Byte) (h : 54 ≤ x.length) :
    (grayImage x).drop 54
      = rowsOut (imageWidth x) (padding (imageWidth x)) (imageHeight x) (x.drop 54) := by
  unfold grayImage
  exact List.drop_left' (by rw [List.length_take, Nat.min_eq_left h])

theorem grayImage_getElem? (x : List Byte) (h : 54 ≤ x.length) (m : Nat) :
    (grayImage x)[54 + m]?
      = (rowsOut (imageWidth x) (padding (imageWidth x)) (imageHeight x) (x.drop 54))[m]? := by
  rw [← grayImage_drop x h, List.getElem?_drop]

theorem grayImage_length {x : List Byte} (hv : Valid x) (hd : HoldsPixelData x) :
    (grayImage x).length = 54 + imageHeight x * stride x := by
  unfold grayImage
  rw [List.length_append, rowsOut_length _ _ _ _ ((holdsPixelData_iff hv).mp hd),
    List.length_take, Nat.min_eq_left hv.1]
  rfl

theorem padding_mod (width : Nat) : padding width = (4 - (width * 3) % 4) % 4 := by
  unfold padding sizeofPIXEL sizeRange
  have h := Nat.and_pow_two_sub_one_eq_mod (width * 3 % 2 ^ 64) 2
  have e : (2 : Nat) ^ 2 - 1 = 3 := by decide
  rw [e] at h
  have h2 : width * 3 % 2 ^ 64 % 2 ^ 2 = width * 3 % 4 :=
    Nat.mod_mod_of_dvd _ (by decide)
  rw [h2] at h
  simp only [h]
  have := Nat.mod_lt (width * 3) (by decide : 0 < 4)
  split <;> omega

/-! ## The claims -/

/-- Claim C2 as stated fails. For red 0, green 36, blue 12 the weighted sum is the exact tie
22.5 and `floor((299*0 + 587*36 + 114*12 + 500) / 1000)` is 23, but the luminance `gray`
computes in `double` is 22. -/
theorem luminance_tie_rounds_down :
    (luminance 0 36 12).val = 22 ∧ (299 * 0 + 587 * 36 + 114 * 12 + 500) / 1000 = 23 ∧
    (luminance 0 36 12).val ≠ (299 * 0 + 587 * 36 + 114 * 12 + 500) / 1000 := by
  decide

/-- Claim C2, amended. For every pixel the luminance written is the `double` value of
`red*0.299 + green*0.587 + blue*0.114 + 0.5` with its fraction dropped.  It equals
`floor((299*red + 587*green + 114*blue + 500) / 1000)` whenever the weighted sum is not an
exact tie, that is `299*red + 587*green + 114*blue` is not 500 modulo 1000; at an exact
tie it is that value or one less.  The tie (0,0,250) gives 29, and (255,0,0) gives 76,
(0,255,0) gives 150, (0,0,255) gives 29, (255,255,255) gives 255 and (0,0,0) gives 0. -/
theorem luminance_rounds (red green blue : Byte) :
    ((299 * red.val + 587 * green.val + 114 * blue.val) % 1000 ≠ 500 →
      (luminance red green blue).val
        = (299 * red.val + 587 * green.val + 114 * blue.val + 500) / 1000) ∧
    ((luminance red green blue).val
        = (299 * red.val + 587 * green.val + 114 * blue.val + 500) / 1000 ∨
      (luminance red green blue).val + 1
        = (299 * red.val + 587 * green.val + 114 * blue.val + 500) / 1000) ∧
    luminance 0 0 250 = 29 ∧ luminance 255 0 0 = 76 ∧ luminance 0 255 0 = 150 ∧
    luminance 0 0 255 = 29 ∧ luminance 255 255 255 = 255 ∧ luminance 0 0 0 = 0 :=
  ⟨luminance_off_tie red green blue, luminance_at_tie red green blue,
    by decide, by decide, by decide, by decide, by decide, by decide⟩

/-- Witness of `luminance_rounds`: pure red, whose weighted sum 76.245 is not a tie. -/
theorem luminance_rounds_witness :
    (299 * 255 + 587 * 0 + 114 * 0) % 1000 ≠ 500 ∧
    (luminance 255 0 0).val = (299 * 255 + 587 * 0 + 114 * 0 + 500) / 1000 :=
  ⟨by decide, (luminance_rounds 255 0 0).1 (by decide)⟩

/-- Claim C4. For every width the padding `gray` computes, `4 - ((width*3) & 3)` replaced by 0
when that is 4, equals `(4 - (rowBytes mod 4)) mod 4` with `rowBytes = width*3`; hence
`rowBytes + padding` is a multiple of 4 and the padding is at most 3.  Width 4 gives 0,
width 5 gives 1, width 6 gives 2 and width 3 gives 3. -/
theorem padding_spec (width : Nat) :
    padding width = (4 - (width * 3) % 4) % 4 ∧ (width * 3 + padding width) % 4 = 0 ∧
    padding width ≤ 3 ∧ padding 4 = 0 ∧ padding 5 = 1 ∧ padding 6 = 2 ∧ padding 3 = 3 := by
  have h := padding_mod width
  refine ⟨h, ?_, ?_, by decide, by decide, by decide, by decide⟩ <;> omega

/-- Claim C5. For every conversion of a file `x` that succeeds, the destination is
`54 + height * (3 * width + padding)` bytes long, so that exactly `padding` bytes follow
each row, and every one of them is zero.  The padding bytes of the source do not matter: a
file `z` that differs from `x` only at the offsets of padding bytes is converted, in the
same environment, to the very same destination. -/
theorem gray_padding (env : Env) (fs fs2 : FS) (p : String) (x z : List Byte)
    (hx : fs p = some x) (hs : (gray env fs p).ret = EXIT_SUCCESS)
    (hz : fs2 p = some z) (hsame : ∀ n, ¬ isPaddingOffset x n → z[n]? = x[n]?) :
    ∃ y, (gray env fs p).fs ("new-" ++ p) = some y ∧
      y.length = 54 + imageHeight x * stride x ∧
      (∀ i k, i < imageHeight x → k < padding (imageWidth x) →
        y[54 + i * stride x + 3 * imageWidth x + k]? = some 0) ∧
      (gray env fs2 p).ret = EXIT_SUCCESS ∧ (gray env fs2 p).fs ("new-" ++ p) = some y := by
  obtain ⟨x2, hx2, hv, hd, henv⟩ := gray_success env fs p hs
  rw [hx] at hx2
  cases hx2
  have hrows := (holdsPixelData_iff hv).mp hd
  have hw : 0 < imageWidth x := by
    have := hv.2.2.2.2.2.1
    unfold imageWidth
    omega
  have hh : 0 < imageHeight x := by
    have := hv.2.2.2.2.2.2
    unfold imageHeight
    omega
  have hS : 0 < stride x := by unfold stride; omega
  -- the headers of `z` are those of `x`
  have hhead : ∀ n, n < 54 → z[n]? = x[n]? := by
    intro n hn
    apply hsame
    intro hpad
    exact absurd hpad.1 (by omega)
  have hz54 : 54 ≤ z.length := by
    have h53 := hhead 53 (by omega)
    have hx53 : x[53]? ≠ none := by
      rw [Ne, List.getElem?_eq_none_iff]
      have := hv.1
      omega
    rw [← h53, Ne, List.getElem?_eq_none_iff] at hx53
    omega
  have htake : z.take 54 = x.take 54 := by
    apply List.ext_getElem?
    intro n
    rw [List.getElem?_take, List.getElem?_take]
    split
    · exact hhead n ‹n < 54›
    · rfl
  obtain ⟨hfh, hih⟩ := headers_congr htake
  have hwz : imageWidth z = imageWidth x := by unfold imageWidth; rw [hih]
  have hhz : imageHeight z = imageHeight x := by unfold imageHeight; rw [hih]
  have hsz : stride z = stride x := by unfold stride; rw [hwz]
  have hvz : Valid z := by
    unfold Valid
    rw [hfh, hih]
    exact ⟨hz54, hv.2⟩
  -- the pixels of `z` are those of `x`
  have hpix : ∀ m, m / stride x < imageHeight x → m % stride x < 3 * imageWidth x →
      z[54 + m]? = x[54 + m]? := by
    intro m h1 h2
    apply hsame
    rintro ⟨_, _, h3⟩
    rw [Nat.add_sub_cancel_left] at h3
    omega
  have hdz : HoldsPixelData z := by
    unfold HoldsPixelData at hd ⊢
    rw [hwz, hhz, hsz]
    have hlast := hpix ((imageHeight x - 1) * stride x + (3 * imageWidth x - 1))
      (by
        rw [Nat.mul_comm, Nat.mul_add_div hS, Nat.div_eq_of_lt (by unfold stride; omega)]
        omega)
      (by
        rw [Nat.mul_comm, Nat.mul_add_mod, Nat.mod_eq_of_lt (by unfold stride; omega)]
        omega)
    have hxl : x[54 + ((imageHeight x - 1) * stride x + (3 * imageWidth x - 1))]? ≠ none := by
      rw [Ne, List.getElem?_eq_none_iff]
      omega
    rw [← hlast, Ne, List.getElem?_eq_none_iff] at hxl
    omega
  have hgz : grayImage z = grayImage x := by
    unfold grayImage
    rw [htake, hwz, hhz]
    congr 1
    apply rowsOut_congr hw
    intro m h1 h2
    rw [List.getElem?_drop, List.getElem?_drop]
    exact hpix m h1 h2
  have hr := gray_of_serves env fs p x hx hv hd henv
  have hrz := gray_of_serves env fs2 p z hz hvz hdz (by rw [hhz]; exact henv)
  refine ⟨grayImage x, ?_, grayImage_length hv hd, ?_, ?_, ?_⟩
  · rw [hr]
    exact store_same _ _ _
  · intro i k hi hk
    have h4 := rowsOut_pad (imageWidth x) (padding (imageWidth x)) (imageHeight x)
      (x.drop 54) i k hi hk hrows
    rw [← grayImage_getElem? x hv.1] at h4
    unfold stride
    simp only [Nat.add_assoc] at h4 ⊢
    exact h4
  · rw [hrz]
  · rw [hrz, hgz]
    exact store_same _ _ _

/-- Witness of `gray_padding`: `sampleImage` and `sampleImage2`, which differ in their
two padding bytes only. -/
theorem gray_padding_witness :
    (sampleFS "a.bmp" = some sampleImage ∧
      (gray Env.always sampleFS "a.bmp").ret = EXIT_SUCCESS ∧
      sampleFS2 "a.bmp" = some sampleImage2) ∧
    ∃ y, (gray Env.always sampleFS "a.bmp").fs ("new-" ++ "a.bmp") = some y ∧
      y.length = 54 + imageHeight sampleImage * stride sampleImage ∧
      (∀ i k, i < imageHeight sampleImage → k < padding (imageWidth sampleImage) →
        y[54 + i * stride sampleImage + 3 * imageWidth sampleImage + k]? = some 0) ∧
      (gray Env.always sampleFS2 "a.bmp").ret = EXIT_SUCCESS ∧
      (gray Env.always sampleFS2 "a.bmp").fs ("new-" ++ "a.bmp") = some y :=
  ⟨⟨by decide, by decide, by decide⟩,
    gray_padding Env.always sampleFS sampleFS2 "a.bmp" sampleImage sampleImage2
      (by decide) (by decide) (by decide) (by
        intro n hn
        by_cases h : n < 62
        · have hst : stride sampleImage = 4 := by decide
          have hh : imageHeight sampleImage = 2 := by decide
          have hwd : imageWidth sampleImage = 1 := by decide
          unfold isPaddingOffset at hn
          rw [hst, hh, hwd] at hn
          have : n < 57 ∨ n = 58 ∨ n = 59 ∨ n = 60 ∨ n = 57 ∨ n = 61 := by omega
          rcases this with h1 | h1 | h1 | h1 | h1 | h1
          · interval_cases n <;> decide
          · subst h1; decide
          · subst h1; decide
          · subst h1; decide
          · subst h1; exact absurd ⟨by decide, by decide, by decide⟩ hn
          · subst h1; exact absurd ⟨by decide, by decide, by decide⟩ hn
        · rw [List.getElem?_eq_none (by
            have : sampleImage2.length = 62 := by decide
            omega), List.getElem?_eq_none (by
            have : sampleImage.length = 62 := by decide
            omega)])⟩

/-- Claim C6. The conversion is idempotent.  When `gray` succeeds on a file and leaves `y` at
the destination, converting `y` (stored at any path of any file system, in an environment
that lets the conversion run to its end) succeeds as well and leaves `y` again.  The
luminance of a gray pixel `(v, v, v)` is `v` for every `v` in 0..255. -/
theorem gray_idempotent (env env2 : Env) (fs fs2 : FS) (p q : String) (y : List Byte)
    (hs : (gray env fs p).ret = EXIT_SUCCESS)
    (hy : (gray env fs p).fs ("new-" ++ p) = some y)
    (hq : fs2 q = some y) (henv2 : env2.serves ("new-" ++ q) (imageHeight y)) :
    (gray env2 fs2 q).ret = EXIT_SUCCESS ∧ (gray env2 fs2 q).fs ("new-" ++ q) = some y ∧
      ∀ v : Byte, luminance v v v = v := by
  obtain ⟨x, hx, hv, hd, henv⟩ := gray_success env fs p hs
  rw [gray_of_serves env fs p x hx hv hd henv] at hy
  have hyx : y = grayImage x := by
    have := store_same fs ("new-" ++ p) (grayImage x)
    simp only at hy
    rw [this] at hy
    exact (Option.some.inj hy).symm
  have hrows := (holdsPixelData_iff hv).mp hd
  have hlen := grayImage_length hv hd
  have htake := grayImage_take x hv.1
  rw [← hyx] at hlen htake
  obtain ⟨hfh, hih⟩ := headers_congr htake
  have hwy : imageWidth y = imageWidth x := by unfold imageWidth; rw [hih]
  have hhy : imageHeight y = imageHeight x := by unfold imageHeight; rw [hih]
  have hsy : stride y = stride x := by unfold stride; rw [hwy]
  have hh : 0 < imageHeight x := by
    have := hv.2.2.2.2.2.2
    unfold imageHeight
    omega
  have hvy : Valid y := by
    unfold Valid
    rw [hfh, hih]
    exact ⟨by omega, hv.2⟩
  have hdy : HoldsPixelData y := by
    unfold HoldsPixelData
    rw [hwy, hhy, hsy, hlen]
    obtain ⟨n, hn⟩ : ∃ n, imageHeight x = n + 1 := ⟨imageHeight x - 1, by omega⟩
    rw [hn, Nat.add_sub_cancel, Nat.succ_mul n (stride x)]
    unfold stride
    omega
  have hgy : grayImage y = y := by
    have hdrop := grayImage_drop x hv.1
    rw [← hyx] at hdrop
    have e : grayImage y = y.take 54 ++ rowsOut (imageWidth y) (padding (imageWidth y))
        (imageHeight y) (y.drop 54) := rfl
    rw [e, hwy, hhy, hdrop, rowsOut_idem luminance_gray _ _ _ _ hrows, htake, hyx]
    rfl
  have hr := gray_of_serves env2 fs2 q y hq hvy hdy henv2
  refine ⟨by rw [hr], ?_, luminance_gray⟩
  rw [hr, hgy]
  exact store_same _ _ _

/-- Witness of `gray_idempotent`: `sampleImage` is converted to `new-a.bmp`, and that file
is converted once more. -/
theorem gray_idempotent_witness :
    ((gray Env.always sampleFS "a.bmp").ret = EXIT_SUCCESS ∧
      (gray Env.always sampleFS "a.bmp").fs ("new-" ++ "a.bmp")
        = some (headers 66 77 1 2 24 0 ++ [22, 22, 22, 0, 29, 29, 29, 0])) ∧
    (gray Env.always (gray Env.always sampleFS "a.bmp").fs "new-a.bmp").ret = EXIT_SUCCESS ∧
    (gray Env.always (gray Env.always sampleFS "a.bmp").fs "new-a.bmp").fs
        ("new-" ++ "new-a.bmp")
      = some (headers 66 77 1 2 24 0 ++ [22, 22, 22, 0, 29, 29, 29, 0]) ∧
    ∀ v : Byte, luminance v v v = v :=
  ⟨⟨by decide, by decide⟩,
    gray_idempotent Env.always Env.always sampleFS (gray Env.always sampleFS "a.bmp").fs
      "a.bmp" "new-a.bmp" (headers 66 77 1 2 24 0 ++ [22, 22, 22, 0, 29, 29, 29, 0])
      (by decide) (by decide) (by decide) ⟨fun _ _ => rfl, rfl, fun _ _ => rfl⟩⟩

theorem validate_some_rejected (env : Env) (fs : FS) (p : String) (x : List Byte) (d : Diag)
    (hm : env.mallocOk 0 = true ∧ env.mallocOk 1 = true)
    (hx : fs p = some x) (hl : 54 ≤ x.length)
    (hval : validate (fileHeaderOf x) (infoHeaderOf x) = some d) :
    (gray env fs p).rejected d := by
  obtain ⟨hr1, hr2, _⟩ := read_headers x hl
  obtain ⟨m0, m1⟩ := hm
  simp only [gray, hx, hr1, hr2, hval, m0, m1]
  exact ⟨rfl, rfl⟩

theorem short_rejected (env : Env) (fs : FS) (p : String) (x : List Byte)
    (hm : env.mallocOk 0 = true ∧ env.mallocOk 1 = true)
    (hx : fs p = some x) (hl : x.length < 54) :
    (gray env fs p).rejected .TruncatedError := by
  obtain ⟨m0, m1⟩ := hm
  rcases headers_short x hl with h | ⟨fh, src1, h1, h2⟩
  · simp only [gray, hx, h, m0, m1]
    exact ⟨rfl, rfl⟩
  · simp only [gray, hx, h1, h2, m0, m1]
    exact ⟨rfl, rfl⟩

/-- Claim C7. Every malformed input is rejected with the error of its cause, and `gray`
returns failure.  A path that cannot be opened yields `OpenError`; when the two header
records are allocated, a file shorter than 54 bytes yields `TruncatedError`, type bytes
other than B, M yield `NotABitmapError`, and, each time with the checks before it passed,
`biCompression ≠ 0` yields `CompressedImageError`, `biBitCount ≠ 24` yields
`UnsupportedDepthError`, `biWidth ≤ 0` and `biHeight ≤ 0` yield `InvalidDimensionsError`. -/
theorem gray_rejects (env : Env) (fs : FS) (p : String)
    (hm : env.mallocOk 0 = true ∧ env.mallocOk 1 = true) :
    (fs p = none → (gray env fs p).rejected .OpenError) ∧
    ∀ x, fs p = some x →
      (x.length < 54 → (gray env fs p).rejected .TruncatedError) ∧
      (54 ≤ x.length →
        (bfType1 (fileHeaderOf x) ≠ 66 ∨ bfType2 (fileHeaderOf x) ≠ 77 →
          (gray env fs p).rejected .NotABitmapError) ∧
        (bfType1 (fileHeaderOf x) = 66 ∧ bfType2 (fileHeaderOf x) = 77 →
          biCompression (infoHeaderOf x) ≠ 0 →
          (gray env fs p).rejected .CompressedImageError) ∧
        (bfType1 (fileHeaderOf x) = 66 ∧ bfType2 (fileHeaderOf x) = 77 →
          biCompression (infoHeaderOf x) = 0 → biBitCount (infoHeaderOf x) ≠ 24 →
          (gray env fs p).rejected .UnsupportedDepthError) ∧
        (bfType1 (fileHeaderOf x) = 66 ∧ bfType2 (fileHeaderOf x) = 77 →
          biCompression (infoHeaderOf x) = 0 → biBitCount (infoHeaderOf x) = 24 →
          biWidth (infoHeaderOf x) ≤ 0 →
          (gray env fs p).rejected .InvalidDimensionsError) ∧
        (bfType1 (fileHeaderOf x) = 66 ∧ bfType2 (fileHeaderOf x) = 77 →
          biCompression (infoHeaderOf x) = 0 → biBitCount (infoHeaderOf x) = 24 →
          0 < biWidth (infoHeaderOf x) → biHeight (infoHeaderOf x) ≤ 0 →
          (gray env fs p).rejected .InvalidDimensionsError)) := by
  refine ⟨?_, ?_⟩
  · intro h
    simp only [gray, h]
    exact ⟨rfl, rfl⟩
  · intro x hx
    refine ⟨fun hl => short_rejected env fs p x hm hx hl, fun hl => ⟨?_, ?_, ?_, ?_, ?_⟩⟩
    · intro h
      apply validate_some_rejected env fs p x _ hm hx hl
      unfold validate
      rw [if_pos h]
    · rintro ⟨h1, h2⟩ h
      apply validate_some_rejected env fs p x _ hm hx hl
      unfold validate
      rw [if_neg (by omega), if_pos h]
    · rintro ⟨h1, h2⟩ h3 h
      apply validate_some_rejected env fs p x _ hm hx hl
      unfold validate
      rw [if_neg (by omega), if_neg (by omega), if_pos h]
    · rintro ⟨h1, h2⟩ h3 h4 h
      apply validate_some_rejected env fs p x _ hm hx hl
      unfold validate
      rw [if_neg (by omega), if_neg (by omega), if_neg (by omega), if_pos h]
    · rintro ⟨h1, h2⟩ h3 h4 h5 h
      apply validate_some_rejected env fs p x _ hm hx hl
      unfold validate
      rw [if_neg (by omega), if_neg (by omega), if_neg (by omega), if_neg (by omega),
        if_pos h]

/-- Witness of `gray_rejects`: a path that does not exist, an empty file, and headers with
type O, K, with compression 5, with bit count 64, with width 0 and with height -1. -/
theorem gray_rejects_witness :
    (gray Env.always sampleFS "randomfilename.bmp").rejected .OpenError ∧
    (gray Env.always sampleFS "empty.bmp").rejected .TruncatedError ∧
    (gray Env.always (single (headers 79 75 4 2 24 0)) "t.bmp").rejected .NotABitmapError ∧
    (gray Env.always (single (headers 66 77 4 2 24 5)) "t.bmp").rejected
      .CompressedImageError ∧
    (gray Env.always (single (headers 66 77 4 2 64 0)) "t.bmp").rejected
      .UnsupportedDepthError ∧
    (gray Env.always (single (headers 66 77 0 2 24 0)) "t.bmp").rejected
      .InvalidDimensionsError ∧
    (gray Env.always (single (headers 66 77 4 (2 ^ 32 - 1) 24 0)) "t.bmp").rejected
      .InvalidDimensionsError :=
  ⟨(gray_rejects Env.always sampleFS "randomfilename.bmp" ⟨rfl, rfl⟩).1 (by decide),
    ((gray_rejects Env.always sampleFS "empty.bmp" ⟨rfl, rfl⟩).2 [] (by decide)).1
      (by decide),
    (((gray_rejects Env.always (single (headers 79 75 4 2 24 0)) "t.bmp" ⟨rfl, rfl⟩).2
      (headers 79 75 4 2 24 0) (by decide)).2 (by decide)).1 (by decide),
    (((gray_rejects Env.always (single (headers 66 77 4 2 24 5)) "t.bmp" ⟨rfl, rfl⟩).2
      (headers 66 77 4 2 24 5) (by decide)).2 (by decide)).2.1 (by decide) (by decide),
    (((gray_rejects Env.always (single (headers 66 77 4 2 64 0)) "t.bmp" ⟨rfl, rfl⟩).2
      (headers 66 77 4 2 64 0) (by decide)).2 (by decide)).2.2.1 (by decide) (by decide)
      (by decide),
    (((gray_rejects Env.always (single (headers 66 77 0 2 24 0)) "t.bmp" ⟨rfl, rfl⟩).2
      (headers 66 77 0 2 24 0) (by decide)).2 (by decide)).2.2.2.1 (by decide) (by decide)
      (by decide) (by decide),
    (((gray_rejects Env.always (single (headers 66 77 4 (2 ^ 32 - 1) 24 0)) "t.bmp"
      ⟨rfl, rfl⟩).2 (headers 66 77 4 (2 ^ 32 - 1) 24 0) (by decide)).2 (by decide)).2.2.2.2
      (by decide) (by decide) (by decide) (by decide) (by decide)⟩

theorem validate_eq_head (x : List Byte) :
    validate (fileHeaderOf x) (infoHeaderOf x) = (failingChecks x).head? := by
  unfold validate failingChecks checksInOrder
  by_cases h1 : bfType1 (fileHeaderOf x) ≠ 66 ∨ bfType2 (fileHeaderOf x) ≠ 77
  · simp [h1, List.filter_cons]
  · by_cases h2 : biCompression (infoHeaderOf x) ≠ 0
    · simp [h1, h2, List.filter_cons]
    · by_cases h3 : biBitCount (infoHeaderOf x) ≠ 24
      · simp [h1, h2, h3, List.filter_cons]
      · by_cases h4 : biWidth (infoHeaderOf x) ≤ 0
        · simp [h1, h2, h3, h4, List.filter_cons]
        · by_cases h5 : biHeight (infoHeaderOf x) ≤ 0
          · simp [h1, h2, h3, h4, h5, List.filter_cons]
          · simp [h1, h2, h3, h4, h5, List.filter_cons]

/-- Claim C8. Validation stops at the first check that fails, in the order magic,
compression, bit depth, width, height: when the two header records are allocated and a
file with both headers fails one check or more, `gray` reports the error of the earliest
failing check of that order, whatever the later checks would say. -/
theorem gray_first_failure (env : Env) (fs : FS) (p : String) (x : List Byte)
    (e : Diag) (later : List Diag)
    (hm : env.mallocOk 0 = true ∧ env.mallocOk 1 = true)
    (hx : fs p = some x) (hl : 54 ≤ x.length) (hf : failingChecks x = e :: later) :
    (gray env fs p).rejected e := by
  apply validate_some_rejected env fs p x e hm hx hl
  rw [validate_eq_head, hf]
  rfl

/-- Witness of `gray_first_failure`: type O, K together with compression 5 is reported as
not a bitmap, and bit count 64 together with width 0 as an unsupported depth. -/
theorem gray_first_failure_witness :
    (failingChecks (headers 79 75 4 2 24 5) = [.NotABitmapError, .CompressedImageError] ∧
      failingChecks (headers 66 77 0 2 64 0)
        = [.UnsupportedDepthError, .InvalidDimensionsError]) ∧
    (gray Env.always (single (headers 79 75 4 2 24 5)) "t.bmp").rejected .NotABitmapError ∧
    (gray Env.always (single (headers 66 77 0 2 64 0)) "t.bmp").rejected
      .UnsupportedDepthError :=
  ⟨⟨by decide, by decide⟩,
    gray_first_failure Env.always (single (headers 79 75 4 2 24 5)) "t.bmp"
      (headers 79 75 4 2 24 5) .NotABitmapError [.CompressedImageError] ⟨rfl, rfl⟩
      (by decide) (by decide) (by decide),
    gray_first_failure Env.always (single (headers 66 77 0 2 64 0)) "t.bmp"
      (headers 66 77 0 2 64 0) .UnsupportedDepthError [.InvalidDimensionsError] ⟨rfl, rfl⟩
      (by decide) (by decide) (by decide)⟩

/-- Claim C9. When the source cannot be opened, or the file read does not pass validation
(a header is cut short, or one of the magic, compression, bit depth, width and height
checks fails), the file system after the call is the file system before it: no
destination is created or written. -/
theorem gray_no_output (env : Env) (fs : FS) (p : String)
    (h : fs p = none ∨ ∃ x, fs p = some x ∧ ¬ Valid x) :
    (gray env fs p).fs = fs := by
  rcases h with h | ⟨x, hx, hnv⟩
  · simp only [gray, h]
  · unfold gray
    simp only [hx]
    split
    · rfl
    split
    · rfl
    split
    · rfl
    rename_i fh src1 hr1
    split
    · rfl
    rename_i ih src2 hr2
    split
    · rfl
    rename_i hval
    exfalso
    apply hnv
    obtain ⟨_, h14, hfh, hs1⟩ := fread_eq_some hr1
    obtain ⟨_, h40, hih, _⟩ := fread_eq_some hr2
    subst hs1
    rw [List.length_drop] at h40
    have h54 : 54 ≤ x.length := by
      unfold sizeofBITMAPFILEHEADER at h14
      unfold sizeofBITMAPINFOHEADER sizeofBITMAPFILEHEADER at h40
      omega
    have hfh2 : fh = fileHeaderOf x := hfh
    have hih2 : ih = infoHeaderOf x := hih
    subst hfh2 hih2
    exact (valid_iff x).mpr ⟨h54, hval⟩

/-- Witness of `gray_no_output`: a path that does not exist, an empty file and a header
with width 0. -/
theorem gray_no_output_witness :
    (sampleFS "randomfilename.bmp" = none ∧ sampleFS "empty.bmp" = some [] ∧ ¬ Valid [] ∧
      ¬ Valid (headers 66 77 0 2 24 0)) ∧
    (gray Env.always sampleFS "randomfilename.bmp").fs = sampleFS ∧
    (gray Env.always sampleFS "empty.bmp").fs = sampleFS ∧
    (gray Env.always (single (headers 66 77 0 2 24 0)) "t.bmp").fs
      = single (headers 66 77 0 2 24 0) :=
  ⟨⟨by decide, by decide, by decide, by decide⟩,
    gray_no_output Env.always sampleFS "randomfilename.bmp" (Or.inl (by decide)),
    gray_no_output Env.always sampleFS "empty.bmp" (Or.inr ⟨[], by decide, by decide⟩),
    gray_no_output Env.always (single (headers 66 77 0 2 24 0)) "t.bmp"
      (Or.inr ⟨headers 66 77 0 2 24 0, by decide, by decide⟩)⟩

/-! ## More about the function `gray` -/

theorem gray_frame (env : Env) (fs : FS) (p q : String) (hq : q ≠ "new-" ++ p) :
    (gray env fs p).fs q = fs q := by
  have hs : ∀ data, (fs.store ("new-" ++ p) data) q = fs q := by
    intro data
    simp [FS.store, hq]
  unfold gray
  repeat' split
  all_goals first | rfl | exact hs _

theorem new_ne (p : String) : "new-" ++ p ≠ p := by
  intro h
  have hl := congrArg String.length h
  rw [String.length_append] at hl
  have h4 : "new-".length = 4 := by decide
  omega

theorem gray_rows (env : Env) (fs : FS) (p : String) (x : List Byte)
    (hx : fs p = some x) (hv : Valid x) (hm : ∀ k, k < 4 → env.mallocOk k = true)
    (hc : env.canCreate ("new-" ++ p) = true)
    (hw : env.fwriteOk 0 = true ∧ env.fwriteOk 1 = true) :
    gray env fs p =
      match rowLoop env (imageWidth x) (padding (imageWidth x)) (imageHeight x) 0
          (x.drop 54) (x.take 54) with
      | (out, some f) =>
          ⟨EXIT_FAILURE, some f.diag, fs.store ("new-" ++ p) (atReturn env f.fpOutOpen out),
            f.fpInOpen, f.fpOutOpen⟩
      | (out, none) => ⟨EXIT_SUCCESS, none, fs.store ("new-" ++ p) out, false, false⟩ := by
  obtain ⟨h54, hval⟩ := (valid_iff x).mp hv
  obtain ⟨hr1, hr2, hcat⟩ := read_headers x h54
  have m0 := hm 0 (by omega)
  have m1 := hm 1 (by omega)
  have m2 := hm 2 (by omega)
  have m3 := hm 3 (by omega)
  obtain ⟨w0, w1⟩ := hw
  simp only [gray, hx, hr1, hr2, hval, hcat, m0, m1, m2, m3, w0, w1, hc]
  rfl

theorem rowLoop_truncated {env : Env} {width pad : Nat} (hw : 0 < width)
    (hsz : (sizeofPIXEL * width) % sizeRange = 3 * width) :
    ∀ (k n i : Nat) (src out : List Byte), k < n →
    (∀ j, j < n → env.mallocOk (4 + i + j) = true ∧ env.fwriteOk (2 + i + j) = true) →
    holdsRows width pad k src.length → src.length < k * (3 * width + pad) + 3 * width →
    rowLoop env width pad n i src out
      = (out ++ rowsOut width pad k src, some ⟨.TruncatedError, false, true⟩) := by
  intro k
  induction k with
  | zero =>
    intro n i src out hk henv _ hshort
    obtain ⟨n, rfl⟩ : ∃ m, n = m + 1 := ⟨n - 1, by omega⟩
    obtain ⟨hm, _⟩ := henv 0 (Nat.succ_pos n)
    simp only [Nat.add_zero] at hm
    have hread := @fread_of_lt (3 * width) src (by omega)
    simp only [rowLoop, hm, hsz, hread, rowsOut, List.append_nil]
    rfl
  | succ k ih =>
    intro n i src out hk henv hrows hshort
    obtain ⟨n, rfl⟩ : ∃ m, n = m + 1 := ⟨n - 1, by omega⟩
    obtain ⟨hm, hf⟩ := henv 0 (Nat.succ_pos n)
    obtain ⟨h3, hrest⟩ := hrows
    simp only [Nat.add_zero] at hm hf
    have hread := @fread_of_le (3 * width) src (by omega) h3
    simp only [rowLoop, hm, hf, hsz, hread, padLoop_eq, List.drop_drop]
    simp only [Bool.true_eq_false, if_false]
    rw [ih n (i + 1) (src.drop (3 * width + pad)) _ (by omega) ?_ ?_ ?_]
    · simp [rowsOut, List.append_assoc]
    · intro j hj
      have := henv (j + 1) (by omega)
      have e1 : 4 + (i + 1) + j = 4 + i + (j + 1) := by omega
      have e2 : 2 + (i + 1) + j = 2 + i + (j + 1) := by omega
      rw [e1, e2]
      exact this
    · rw [List.length_drop]
      exact hrest
    · rw [List.length_drop]
      rw [Nat.succ_mul k (3 * width + pad)] at hshort
      omega

theorem rowLoop_short {env : Env} {width pad : Nat} (hw : 0 < width)
    (hsz : (sizeofPIXEL * width) % sizeRange = 3 * width) :
    ∀ (n i : Nat) (src out : List Byte),
    (∀ j, j < n → env.mallocOk (4 + i + j) = true ∧ env.fwriteOk (2 + i + j) = true) →
    ¬ holdsRows width pad n src.length →
    ∃ out2, rowLoop env width pad n i src out
      = (out2, some ⟨.TruncatedError, false, true⟩) := by
  intro n
  induction n with
  | zero => intro i src out _ h; exact absurd trivial h
  | succ n ih =>
    intro i src out henv hnot
    obtain ⟨hm, hf⟩ := henv 0 (Nat.succ_pos n)
    simp only [Nat.add_zero] at hm hf
    by_cases h3 : 3 * width ≤ src.length
    · have hread := @fread_of_le (3 * width) src (by omega) h3
      simp only [rowLoop, hm, hf, hsz, hread, padLoop_eq, List.drop_drop]
      simp only [Bool.true_eq_false, if_false]
      apply ih
      · intro j hj
        have := henv (j + 1) (by omega)
        have e1 : 4 + (i + 1) + j = 4 + i + (j + 1) := by omega
        have e2 : 2 + (i + 1) + j = 2 + i + (j + 1) := by omega
        rw [e1, e2]
        exact this
      · rw [List.length_drop]
        intro hr
        exact hnot ⟨h3, hr⟩
    · have hread := @fread_of_lt (3 * width) src (by omega)
      simp only [rowLoop, hm, hsz, hread]
      exact ⟨out, rfl⟩

theorem imageWidth_pos {x : List Byte} (hv : Valid x) : 0 < imageWidth x := by
  have := hv.2.2.2.2.2.1
  unfold imageWidth
  omega

theorem imageHeight_pos {x : List Byte} (hv : Valid x) : 0 < imageHeight x := by
  have := hv.2.2.2.2.2.2
  unfold imageHeight
  omega

theorem take_append_getElem? (x R : List Byte) (h : 54 ≤ x.length) (m : Nat) :
    (x.take 54 ++ R)[54 + m]? = R[m]? :=
  getElem?_append_add _ _ _ _ (by rw [List.length_take, Nat.min_eq_left h])

/-- A file `z` with the headers and the pixel bytes of a file `x` that `gray` converts is
converted, in the same environment, to the same destination. -/
theorem gray_congr (env : Env) (fs fs2 : FS) (p : String) (x z : List Byte)
    (hx : fs p = some x) (hs : (gray env fs p).ret = EXIT_SUCCESS) (hz : fs2 p = some z)
    (hhead : ∀ n, n < 54 → z[n]? = x[n]?)
    (hpix : ∀ m, m / stride x < imageHeight x → m % stride x < 3 * imageWidth x →
      z[54 + m]? = x[54 + m]?) :
    (gray env fs2 p).ret = EXIT_SUCCESS ∧
      (gray env fs2 p).fs ("new-" ++ p) = (gray env fs p).fs ("new-" ++ p) := by
  obtain ⟨x2, hx2, hv, hd, henv⟩ := gray_success env fs p hs
  rw [hx] at hx2
  cases hx2
  have hw := imageWidth_pos hv
  have hh := imageHeight_pos hv
  have hS : 0 < stride x := by unfold stride; omega
  have hz54 : 54 ≤ z.length := by
    have h53 := hhead 53 (by omega)
    have hx53 : x[53]? ≠ none := by
      rw [Ne, List.getElem?_eq_none_iff]
      have := hv.1
      omega
    rw [← h53, Ne, List.getElem?_eq_none_iff] at hx53
    omega
  have htake : z.take 54 = x.take 54 := by
    apply List.ext_getElem?
    intro n
    rw [List.getElem?_take, List.getElem?_take]
    split
    · exact hhead n ‹n < 54›
    · rfl
  obtain ⟨hfh, hih⟩ := headers_congr htake
  have hwz : imageWidth z = imageWidth x := by unfold imageWidth; rw [hih]
  have hhz : imageHeight z = imageHeight x := by unfold imageHeight; rw [hih]
  have hsz : stride z = stride x := by unfold stride; rw [hwz]
  have hvz : Valid z := by
    unfold Valid
    rw [hfh, hih]
    exact ⟨hz54, hv.2⟩
  have hdz : HoldsPixelData z := by
    unfold HoldsPixelData at hd ⊢
    rw [hwz, hhz, hsz]
    have hlast := hpix ((imageHeight x - 1) * stride x + (3 * imageWidth x - 1))
      (by
        rw [Nat.mul_comm, Nat.mul_add_div hS, Nat.div_eq_of_lt (by unfold stride; omega)]
        omega)
      (by
        rw [Nat.mul_comm, Nat.mul_add_mod, Nat.mod_eq_of_lt (by unfold stride; omega)]
        omega)
    have hxl : x[54 + ((imageHeight x - 1) * stride x + (3 * imageWidth x - 1))]? ≠ none := by
      rw [Ne, List.getElem?_eq_none_iff]
      omega
    rw [← hlast, Ne, List.getElem?_eq_none_iff] at hxl
    omega
  have hgz : grayImage z = grayImage x := by
    unfold grayImage
    rw [htake, hwz, hhz]
    congr 1
    apply rowsOut_congr hw
    intro m h1 h2
    rw [List.getElem?_drop, List.getElem?_drop]
    exact hpix m h1 h2
  rw [gray_of_serves env fs p x hx hv hd henv,
    gray_of_serves env fs2 p z hz hvz hdz (by rw [hhz]; exact henv), hgz]
  exact ⟨rfl, (store_same _ _ _).trans (store_same _ _ _).symm⟩

/-! ## The claims, continued -/

/-- Claim C11 fails on the code. On headers with the type bytes O, K the call is rejected
as not a bitmap and returns with the source stream `fp_in` still open; on a bitmap cut
inside its second row the call is rejected as truncated and returns with the destination
stream `fp_out` still open. -/
theorem gray_leaves_streams_open :
    (gray Env.always (single (headers 79 75 4 2 24 0)) "t.bmp").rejected .NotABitmapError ∧
    (gray Env.always (single (headers 79 75 4 2 24 0)) "t.bmp").fpInOpen = true ∧
    (gray Env.always (single truncatedImage) "t.bmp").rejected .TruncatedError ∧
    (gray Env.always (single truncatedImage) "t.bmp").fpOutOpen = true :=
  ⟨⟨by decide, by decide⟩, by decide, ⟨by decide, by decide⟩, by decide⟩

/-- Claim C12. For every file with valid headers in which fewer than `3 * width` bytes
are left when some row `k` below the height is read, that is when the file is shorter than
`54 + k * stride + 3 * width`, `gray` fails with `TruncatedError` and returns failure,
in an environment where no allocation, creation or write fails. -/
theorem gray_truncated_row (env : Env) (fs : FS) (p : String) (x : List Byte) (k : Nat)
    (hx : fs p = some x) (hv : Valid x) (henv : env.serves ("new-" ++ p) (imageHeight x))
    (hk : k < imageHeight x) (hshort : x.length < 54 + k * stride x + 3 * imageWidth x) :
    (gray env fs p).rejected .TruncatedError := by
  have hnot : ¬ holdsRows (imageWidth x) (padding (imageWidth x)) (imageHeight x)
      (x.drop 54).length := by
    rw [← holdsPixelData_iff hv]
    unfold HoldsPixelData
    have hle : k * stride x ≤ (imageHeight x - 1) * stride x :=
      Nat.mul_le_mul_right _ (by omega)
    omega
  obtain ⟨out2, hloop⟩ := rowLoop_short (imageWidth_pos hv) (rowSize_eq (imageWidth_lt x))
    (imageHeight x) 0 (x.drop 54) (x.take 54) (serves_rows henv) hnot
  rw [gray_rows env fs p x hx hv (fun j hj => henv.1 j (by omega)) henv.2.1
    ⟨henv.2.2 0 (by omega), henv.2.2 1 (by omega)⟩, hloop]
  exact ⟨rfl, rfl⟩

/-- Witness of `gray_truncated_row`: `truncatedImage`, whose second row has one byte. -/
theorem gray_truncated_row_witness :
    (single truncatedImage "t.bmp" = some truncatedImage ∧ Valid truncatedImage ∧
      1 < imageHeight truncatedImage ∧
      truncatedImage.length
        < 54 + 1 * stride truncatedImage + 3 * imageWidth truncatedImage) ∧
    (gray Env.always (single truncatedImage) "t.bmp").rejected .TruncatedError :=
  ⟨⟨by decide, by decide, by decide, by decide⟩,
    gray_truncated_row Env.always (single truncatedImage) "t.bmp" truncatedImage 1
      (by decide) (by decide) ⟨fun _ _ => rfl, rfl, fun _ _ => rfl⟩ (by decide) (by decide)⟩

/-- Claim C13. For every path `p` the destination path is the string `new-` followed by
the whole of `p`: its length is the length of `p` plus 4, `photo.bmp` gives
`new-photo.bmp` and `dir/photo.bmp` gives `new-dir/photo.bmp`.  It is the only path whose
file a call of `gray` on `p` can change, and after a call that succeeds a file is stored
there. -/
theorem destination_path (env : Env) (fs : FS) (p : String) :
    ("new-" ++ p).length = p.length + 4 ∧
    "new-" ++ "photo.bmp" = "new-photo.bmp" ∧
    "new-" ++ "dir/photo.bmp" = "new-dir/photo.bmp" ∧
    (∀ q, q ≠ "new-" ++ p → (gray env fs p).fs q = fs q) ∧
    ((gray env fs p).ret = EXIT_SUCCESS → ∃ y, (gray env fs p).fs ("new-" ++ p) = some y) := by
  refine ⟨?_, by decide, by decide, fun q hq => gray_frame env fs p q hq, ?_⟩
  · rw [String.length_append]
    have h4 : "new-".length = 4 := by decide
    omega
  · intro hs
    obtain ⟨x, hx, hv, hd, henv⟩ := gray_success env fs p hs
    rw [gray_of_serves env fs p x hx hv hd henv]
    exact ⟨_, store_same _ _ _⟩

/-- Witness of `destination_path`: the conversion of `a.bmp` stores a file at `new-a.bmp`
and leaves `empty.bmp` as it was. -/
theorem destination_path_witness :
    ("empty.bmp" ≠ "new-" ++ "a.bmp" ∧
      (gray Env.always sampleFS "a.bmp").ret = EXIT_SUCCESS) ∧
    (gray Env.always sampleFS "a.bmp").fs "empty.bmp" = sampleFS "empty.bmp" ∧
    ∃ y, (gray Env.always sampleFS "a.bmp").fs ("new-" ++ "a.bmp") = some y :=
  ⟨⟨by decide, by decide⟩,
    (destination_path Env.always sampleFS "a.bmp").2.2.2.1 "empty.bmp" (by decide),
    (destination_path Env.always sampleFS "a.bmp").2.2.2.2 (by decide)⟩

/-- Claim C14. The source file is never modified: for every path `p`, in every
environment and whatever the outcome of the call, the file stored at `p` after the call is
the file stored there before, since the only path written is `new-` followed by `p`, which
is never `p`.  Distinct paths are taken to name distinct files. -/
theorem source_untouched (env : Env) (fs : FS) (p : String) :
    "new-" ++ p ≠ p ∧ (gray env fs p).fs p = fs p :=
  ⟨new_ne p, gray_frame env fs p p (fun h => new_ne p h.symm)⟩

/-- What `gray` leaves when it fails while reading row `k`: the 54 header bytes of the
source and the first `k` rows converted, each with its zero padding, have been written to
`fp_out`, which is left open, and the destination holds the part of them that has left
the buffer. -/
theorem gray_truncated_stream (env : Env) (fs : FS) (p : String) (x : List Byte) (k : Nat)
    (hx : fs p = some x) (hv : Valid x) (henv : env.serves ("new-" ++ p) (imageHeight x))
    (hk : k < imageHeight x)
    (hprev : k = 0 ∨ 54 + (k - 1) * stride x + 3 * imageWidth x ≤ x.length)
    (hshort : x.length < 54 + k * stride x + 3 * imageWidth x) :
    (gray env fs p).rejected .TruncatedError ∧ (gray env fs p).fpOutOpen = true ∧
    ∃ y, (gray env fs p).fs ("new-" ++ p) = some (y.take (env.flushed y.length)) ∧
      y.length = 54 + k * stride x ∧ y.take 54 = x.take 54 ∧
      (∀ i j, i < k → j < imageWidth x → GrayAt x y (54 + i * stride x + 3 * j)) ∧
      (∀ i c, i < k → c < padding (imageWidth x) →
        y[54 + i * stride x + 3 * imageWidth x + c]? = some 0) := by
  have h54 := hv.1
  have hw := imageWidth_pos hv
  have hlen54 : (x.take 54).length = 54 := by rw [List.length_take, Nat.min_eq_left h54]
  have hrows : holdsRows (imageWidth x) (padding (imageWidth x)) k (x.drop 54).length := by
    rw [holdsRows_iff hw, List.length_drop]
    unfold stride at hprev
    rcases hprev with h | h
    · exact Or.inl h
    · exact Or.inr (by omega)
  have hshort2 : (x.drop 54).length
      < k * (3 * imageWidth x + padding (imageWidth x)) + 3 * imageWidth x := by
    rw [List.length_drop]
    unfold stride at hshort
    omega
  have hloop := rowLoop_truncated hw (rowSize_eq (imageWidth_lt x)) k (imageHeight x) 0
    (x.drop 54) (x.take 54) hk (serves_rows henv) hrows hshort2
  rw [gray_rows env fs p x hx hv (fun j hj => henv.1 j (by omega)) henv.2.1
    ⟨henv.2.2 0 (by omega), henv.2.2 1 (by omega)⟩, hloop]
  refine ⟨⟨rfl, rfl⟩, rfl, _, store_same _ _ _, ?_, List.take_left' hlen54, ?_, ?_⟩
  · rw [List.length_append, hlen54, rowsOut_length _ _ _ _ hrows]
    rfl
  · intro i j hi hj
    obtain ⟨b, g, r, h1, h2, h3, h4, h5, h6⟩ :=
      rowsOut_pixel (imageWidth x) (padding (imageWidth x)) k (x.drop 54) i j hi hj hrows
    rw [List.getElem?_drop] at h1 h2 h3
    rw [← take_append_getElem? x _ h54] at h4 h5 h6
    refine ⟨b, g, r, ?_⟩
    unfold stride
    simp only [Nat.add_assoc] at h1 h2 h3 h4 h5 h6 ⊢
    exact ⟨h1, h2, h3, h4, h5, h6⟩
  · intro i c hi hc
    have h4 := rowsOut_pad (imageWidth x) (padding (imageWidth x)) k (x.drop 54) i c hi hc
      hrows
    rw [← take_append_getElem? x _ h54] at h4
    unfold stride
    simp only [Nat.add_assoc] at h4 ⊢
    exact h4

/-- Claim C15 fails on the code. The bitmap `truncatedImage` has valid headers, a first
row with its padding and one byte of its second row, so that `gray` fails with
`TruncatedError` while reading row 1.  The 54 header bytes and the first converted row
with its padding, 58 bytes, have been written to `fp_out`, but `gray` returns without
flushing or closing that stream: the destination has been created and is left in place,
and where no byte has left the buffer it is empty when `gray` returns. -/
theorem gray_truncated_unflushed :
    (gray Env.always (single truncatedImage) "t.bmp").rejected .TruncatedError ∧
    (gray Env.always (single truncatedImage) "t.bmp").fpOutOpen = true ∧
    (gray Env.always (single truncatedImage) "t.bmp").fs "new-t.bmp" = some [] ∧
    54 + 1 * stride truncatedImage = 58 :=
  ⟨⟨by decide, by decide⟩, by decide, by decide, by decide⟩

/-- Claim C16. For every file whose headers pass validation and whose length is at least
`54 + height * rowBytes + (height - 1) * padding`, `gray` returns success in an
environment where the allocations succeed and the destination can be opened and written.
The padding bytes after the last row are not needed, and the destination still carries
the full zero padding after its last row: it is `54 + height * stride` bytes long and the
`padding` bytes after the pixels of the last row are zero. -/
theorem gray_succeeds (env : Env) (fs : FS) (p : String) (x : List Byte)
    (hx : fs p = some x) (hv : Valid x)
    (hlen : 54 + imageHeight x * (3 * imageWidth x)
      + (imageHeight x - 1) * padding (imageWidth x) ≤ x.length)
    (henv : env.serves ("new-" ++ p) (imageHeight x)) :
    (gray env fs p).ret = EXIT_SUCCESS ∧
    ∃ y, (gray env fs p).fs ("new-" ++ p) = some y ∧
      y.length = 54 + imageHeight x * stride x ∧
      ∀ c, c < padding (imageWidth x) →
        y[54 + (imageHeight x - 1) * stride x + 3 * imageWidth x + c]? = some 0 := by
  have hh := imageHeight_pos hv
  have hd : HoldsPixelData x := by
    unfold HoldsPixelData stride
    obtain ⟨n, hn⟩ : ∃ n, imageHeight x = n + 1 := ⟨imageHeight x - 1, by omega⟩
    rw [hn, Nat.add_sub_cancel] at hlen ⊢
    rw [Nat.succ_mul n (3 * imageWidth x)] at hlen
    rw [Nat.mul_add n (3 * imageWidth x) (padding (imageWidth x))]
    omega
  have hrows := (holdsPixelData_iff hv).mp hd
  rw [gray_of_serves env fs p x hx hv hd henv]
  refine ⟨rfl, grayImage x, store_same _ _ _, grayImage_length hv hd, ?_⟩
  intro c hc
  have h4 := rowsOut_pad (imageWidth x) (padding (imageWidth x)) (imageHeight x)
    (x.drop 54) (imageHeight x - 1) c (by omega) hc hrows
  rw [← grayImage_getElem? x hv.1] at h4
  unfold stride
  simp only [Nat.add_assoc] at h4 ⊢
  exact h4

/-- Witness of `gray_succeeds`: bitmaps of width 4, 5, 6 and 3 and of height 2, with
padding 0, 1, 2 and 3, that end right after the pixels of their last row. -/
theorem gray_succeeds_witness :
    (Valid (paddingCase 4) ∧ Valid (paddingCase 5) ∧ Valid (paddingCase 6) ∧
      Valid (paddingCase 3) ∧ (paddingCase 5).length = 54 + 2 * 15 + 1 ∧
      imageHeight (paddingCase 5) = 2 ∧ stride (paddingCase 5) = 16) ∧
    (gray Env.always (single (paddingCase 4)) "t.bmp").ret = EXIT_SUCCESS ∧
    (gray Env.always (single (paddingCase 5)) "t.bmp").ret = EXIT_SUCCESS ∧
    (gray Env.always (single (paddingCase 6)) "t.bmp").ret = EXIT_SUCCESS ∧
    (gray Env.always (single (paddingCase 3)) "t.bmp").ret = EXIT_SUCCESS :=
  ⟨⟨by decide, by decide, by decide, by decide, by decide, by decide, by decide⟩,
    (gray_succeeds Env.always (single (paddingCase 4)) "t.bmp" (paddingCase 4) (by decide)
      (by decide) (by decide) ⟨fun _ _ => rfl, rfl, fun _ _ => rfl⟩).1,
    (gray_succeeds Env.always (single (paddingCase 5)) "t.bmp" (paddingCase 5) (by decide)
      (by decide) (by decide) ⟨fun _ _ => rfl, rfl, fun _ _ => rfl⟩).1,
    (gray_succeeds Env.always (single (paddingCase 6)) "t.bmp" (paddingCase 6) (by decide)
      (by decide) (by decide) ⟨fun _ _ => rfl, rfl, fun _ _ => rfl⟩).1,
    (gray_succeeds Env.always (single (paddingCase 3)) "t.bmp" (paddingCase 3) (by decide)
      (by decide) (by decide) ⟨fun _ _ => rfl, rfl, fun _ _ => rfl⟩).1⟩

theorem luminanceValue_bounds (r g b : Byte) :
    (299 * r.val + 587 * g.val + 114 * b.val + 500) * 2 ^ 60
      ≤ 1000 * luminanceValue r g b + 6000 * 2 ^ 16 ∧
    1000 * luminanceValue r g b
      ≤ (299 * r.val + 587 * g.val + 114 * b.val + 500) * 2 ^ 60 + 6000 * 2 ^ 16 := by
  have hr := mul_299_bounds r
  have hg := mul_587_bounds g
  have hb := mul_114_bounds b
  have hrv := r.isLt
  have hgv := g.isLt
  have hbv := b.isLt
  unfold luminanceValue
  rw [lit_half]
  generalize mul (ofNat r.val) (lit 299 1000) = R at hr ⊢
  generalize mul (ofNat g.val) (lit 587 1000) = G at hg ⊢
  generalize mul (ofNat b.val) (lit 114 1000) = B at hb ⊢
  have h1 := add_bounds R G (by norm_num at hr hg ⊢; omega)
  generalize add R G = T1 at h1 ⊢
  have h2 := add_bounds T1 B (by norm_num at hr hg hb h1 ⊢; omega)
  generalize add T1 B = T2 at h2 ⊢
  have h3 := add_bounds T2 (2 ^ 59) (by norm_num at hr hg hb h1 h2 ⊢; omega)
  generalize add T2 (2 ^ 59) = T3 at h3 ⊢
  norm_num at hr hg hb h1 h2 h3 ⊢
  omega

theorem luminanceValue_lt (r g b : Byte) : luminanceValue r g b / 2 ^ fracBits < 256 := by
  obtain ⟨_, h2⟩ := luminanceValue_bounds r g b
  have hrv := r.isLt
  have hgv := g.isLt
  have hbv := b.isLt
  apply Nat.div_lt_of_lt_mul
  unfold fracBits
  norm_num at h2 ⊢
  omega

theorem luminance_min_max (red green blue : Byte) :
    min (min red.val green.val) blue.val ≤ (luminance red green blue).val ∧
    (luminance red green blue).val ≤ max (max red.val green.val) blue.val := by
  have hoff := luminance_off_tie red green blue
  have htie := luminance_at_tie red green blue
  have m1 : min (min red.val green.val) blue.val ≤ red.val :=
    Nat.le_trans (Nat.min_le_left _ _) (Nat.min_le_left _ _)
  have m2 : min (min red.val green.val) blue.val ≤ green.val :=
    Nat.le_trans (Nat.min_le_left _ _) (Nat.min_le_right _ _)
  have m3 : min (min red.val green.val) blue.val ≤ blue.val := Nat.min_le_right _ _
  have M1 : red.val ≤ max (max red.val green.val) blue.val :=
    Nat.le_trans (Nat.le_max_left _ _) (Nat.le_max_left _ _)
  have M2 : green.val ≤ max (max red.val green.val) blue.val :=
    Nat.le_trans (Nat.le_max_right _ _) (Nat.le_max_left _ _)
  have M3 : blue.val ≤ max (max red.val green.val) blue.val := Nat.le_max_right _ _
  generalize min (min red.val green.val) blue.val = lo at m1 m2 m3 ⊢
  generalize max (max red.val green.val) blue.val = hi at M1 M2 M3 ⊢
  generalize (luminance red green blue).val = l at hoff htie ⊢
  generalize red.val = r at hoff htie m1 M1
  generalize green.val = g at hoff htie m2 M2
  generalize blue.val = b at hoff htie m3 M3
  have hdm := Nat.div_add_mod (299 * r + 587 * g + 114 * b + 500) 1000
  have hmod := Nat.mod_lt (299 * r + 587 * g + 114 * b + 500) (by decide : 0 < 1000)
  by_cases h : (299 * r + 587 * g + 114 * b) % 1000 = 500
  · have ht : (299 * r + 587 * g + 114 * b + 500) % 1000 = 0 := by omega
    rw [ht] at hdm
    generalize (299 * r + 587 * g + 114 * b + 500) / 1000 = k at htie hdm
    rcases htie with e | e
    · constructor <;> omega
    · constructor <;> omega
  · have e := hoff h
    generalize (299 * r + 587 * g + 114 * b + 500) % 1000 = t at hdm hmod
    generalize (299 * r + 587 * g + 114 * b + 500) / 1000 = k at e hdm
    constructor <;> omega

/-- Claim C17. For every pixel the luminance lies between the smallest and the largest of
its three channels.  The `double` value that is converted to `byte` is below 256, so that
the conversion drops the fraction only and neither wraps nor cuts high bits. -/
theorem luminance_between (red green blue : Byte) :
    min (min red.val green.val) blue.val ≤ (luminance red green blue).val ∧
    (luminance red green blue).val ≤ max (max red.val green.val) blue.val ∧
    luminanceValue red green blue / 2 ^ fracBits < 256 ∧
    (luminance red green blue).val = luminanceValue red green blue / 2 ^ fracBits :=
  ⟨(luminance_min_max red green blue).1, (luminance_min_max red green blue).2,
    luminanceValue_lt red green blue, Nat.mod_eq_of_lt (luminanceValue_lt red green blue)⟩

/-- Claim C18. For every conversion that succeeds, of an image of width `w` and height
`h`, the destination is exactly `54 + h * (3 * w + padding)` bytes long, where
`3 * w + padding` is the least multiple of 4 from `3 * w` on and `padding` is `w mod 4`.
Bytes of the source after the pixels of its last row are not copied: a file that agrees
with the source up to there is converted to the same destination.  The length depends on
the width and the height only: another file of the same width and height that is
converted has a destination of the same length, whatever its other header fields. -/
theorem gray_output_length (env : Env) (fs : FS) (p : String) (x : List Byte)
    (hx : fs p = some x) (hs : (gray env fs p).ret = EXIT_SUCCESS) :
    ∃ y, (gray env fs p).fs ("new-" ++ p) = some y ∧
      y.length = 54 + imageHeight x * (3 * imageWidth x + padding (imageWidth x)) ∧
      padding (imageWidth x) = imageWidth x % 4 ∧
      (3 * imageWidth x + padding (imageWidth x)) % 4 = 0 ∧
      (∀ m, 3 * imageWidth x ≤ m → m % 4 = 0 →
        3 * imageWidth x + padding (imageWidth x) ≤ m) ∧
      (∀ (fs2 : FS) (z : List Byte), fs2 p = some z →
        (∀ n, n < 54 + (imageHeight x - 1) * stride x + 3 * imageWidth x → z[n]? = x[n]?) →
        (gray env fs2 p).ret = EXIT_SUCCESS ∧ (gray env fs2 p).fs ("new-" ++ p) = some y) ∧
      (∀ (env2 : Env) (fs2 : FS) (p2 : String) (x2 y2 : List Byte), fs2 p2 = some x2 →
        (gray env2 fs2 p2).ret = EXIT_SUCCESS →
        (gray env2 fs2 p2).fs ("new-" ++ p2) = some y2 →
        imageWidth x2 = imageWidth x → imageHeight x2 = imageHeight x →
        y2.length = y.length) := by
  obtain ⟨x1, hx1, hv, hd, henv⟩ := gray_success env fs p hs
  rw [hx] at hx1
  cases hx1
  have hw := imageWidth_pos hv
  have hh := imageHeight_pos hv
  have hS : 0 < stride x := by unfold stride; omega
  have hr := gray_of_serves env fs p x hx hv hd henv
  have hout : (gray env fs p).fs ("new-" ++ p) = some (grayImage x) := by
    rw [hr]
    exact store_same _ _ _
  have hpad := padding_mod (imageWidth x)
  refine ⟨grayImage x, hout, grayImage_length hv hd, by omega, by omega, ?_, ?_, ?_⟩
  · intro m h1 h2
    omega
  · intro fs2 z hz hsame
    have hc := gray_congr env fs fs2 p x z hx hs hz
      (fun n hn => hsame n (by omega))
      (fun m h1 h2 => hsame (54 + m) (by
        have hdm := Nat.div_add_mod m (stride x)
        have hle : stride x * (m / stride x) ≤ stride x * (imageHeight x - 1) :=
          Nat.mul_le_mul_left _ (by omega)
        rw [Nat.mul_comm (stride x) (imageHeight x - 1)] at hle
        omega))
    exact ⟨hc.1, hc.2.trans hout⟩
  · intro env2 fs2 p2 x2 y2 hx2 hs2 hy2 hwe hhe
    obtain ⟨x3, hx3, hv2, hd2, henv2⟩ := gray_success env2 fs2 p2 hs2
    rw [hx2] at hx3
    cases hx3
    rw [gray_of_serves env2 fs2 p2 x2 hx2 hv2 hd2 henv2] at hy2
    have e : y2 = grayImage x2 := (Option.some.inj ((store_same _ _ _).symm.trans hy2)).symm
    rw [e, grayImage_length hv2 hd2, grayImage_length hv hd]
    unfold stride
    rw [hwe, hhe]

/-- Witness of `gray_output_length`: the conversion of `sampleImage`, of width 1 and
height 2, leaves 62 bytes. -/
theorem gray_output_length_witness :
    (sampleFS "a.bmp" = some sampleImage ∧
      (gray Env.always sampleFS "a.bmp").ret = EXIT_SUCCESS) ∧
    ∃ y, (gray Env.always sampleFS "a.bmp").fs ("new-" ++ "a.bmp") = some y ∧
      y.length = 54 + imageHeight sampleImage
        * (3 * imageWidth sampleImage + padding (imageWidth sampleImage)) ∧
      padding (imageWidth sampleImage) = imageWidth sampleImage % 4 ∧
      (3 * imageWidth sampleImage + padding (imageWidth sampleImage)) % 4 = 0 ∧
      (∀ m, 3 * imageWidth sampleImage ≤ m → m % 4 = 0 →
        3 * imageWidth sampleImage + padding (imageWidth sampleImage) ≤ m) ∧
      (∀ (fs2 : FS) (z : List Byte), fs2 "a.bmp" = some z →
        (∀ n, n < 54 + (imageHeight sampleImage - 1) * stride sampleImage
            + 3 * imageWidth sampleImage → z[n]? = sampleImage[n]?) →
        (gray Env.always fs2 "a.bmp").ret = EXIT_SUCCESS ∧
          (gray Env.always fs2 "a.bmp").fs ("new-" ++ "a.bmp") = some y) ∧
      (∀ (env2 : Env) (fs2 : FS) (p2 : String) (x2 y2 : List Byte), fs2 p2 = some x2 →
        (gray env2 fs2 p2).ret = EXIT_SUCCESS →
        (gray env2 fs2 p2).fs ("new-" ++ p2) = some y2 →
        imageWidth x2 = imageWidth sampleImage → imageHeight x2 = imageHeight sampleImage →
        y2.length = y.length) :=
  ⟨⟨by decide, by decide⟩,
    gray_output_length Env.always sampleFS "a.bmp" sampleImage (by decide) (by decide)⟩

theorem rowLoop_write_fails {env : Env} {width pad : Nat} (hw : 0 < width)
    (hsz : (sizeofPIXEL * width) % sizeRange = 3 * width) :
    ∀ (n i : Nat) (src out : List Byte),
    (∀ j, j < n → env.mallocOk (4 + i + j) = true) →
    holdsRows width pad n src.length →
    (∃ j, j < n ∧ env.fwriteOk (2 + i + j) = false) →
    ∃ out2, rowLoop env width pad n i src out
      = (out2, some ⟨.WriteError, true, false⟩) := by
  intro n
  induction n with
  | zero =>
    intro i src out _ _ h
    obtain ⟨j, hj, _⟩ := h
    exact absurd hj (Nat.not_lt_zero j)
  | succ n ih =>
    intro i src out hmall hrows hfail
    have hm := hmall 0 (Nat.succ_pos n)
    simp only [Nat.add_zero] at hm
    obtain ⟨h3, hrest⟩ := hrows
    have hread := @fread_of_le (3 * width) src (by omega) h3
    by_cases hf : env.fwriteOk (2 + i) = false
    · simp only [rowLoop, hm, hf, hsz, hread]
      exact ⟨out, rfl⟩
    · have hf2 : env.fwriteOk (2 + i) = true := by simpa using hf
      simp only [rowLoop, hm, hf2, hsz, hread, padLoop_eq, List.drop_drop]
      simp only [Bool.true_eq_false, if_false]
      apply ih
      · intro j hj
        have := hmall (j + 1) (by omega)
        have e1 : 4 + (i + 1) + j = 4 + i + (j + 1) := by omega
        rw [e1]
        exact this
      · rw [List.length_drop]
        exact hrest
      · obtain ⟨j, hj, hjf⟩ := hfail
        cases j with
        | zero =>
          simp only [Nat.add_zero] at hjf
          rw [hjf] at hf2
          exact absurd hf2 (by decide)
        | succ j =>
          refine ⟨j, by omega, ?_⟩
          have e2 : 2 + (i + 1) + j = 2 + i + (j + 1) := by omega
          rw [e2]
          exact hjf

theorem header_write_fails (env : Env) (fs : FS) (p : String) (x : List Byte)
    (hx : fs p = some x) (hv : Valid x) (hm : ∀ k, k < 3 → env.mallocOk k = true)
    (hc : env.canCreate ("new-" ++ p) = true)
    (hw : env.fwriteOk 0 = false ∨ env.fwriteOk 1 = false) :
    (gray env fs p).rejected .WriteError := by
  obtain ⟨h54, hval⟩ := (valid_iff x).mp hv
  obtain ⟨hr1, hr2, _⟩ := read_headers x h54
  have m0 := hm 0 (by omega)
  have m1 := hm 1 (by omega)
  have m2 := hm 2 (by omega)
  by_cases w0 : env.fwriteOk 0 = false
  · simp only [gray, hx, hr1, hr2, hval, m0, m1, m2, hc, w0]
    exact ⟨rfl, rfl⟩
  · have w0t : env.fwriteOk 0 = true := by simpa using w0
    have w1 : env.fwriteOk 1 = false := by
      rcases hw with h | h
      · exact absurd h w0
      · exact h
    simp only [gray, hx, hr1, hr2, hval, m0, m1, m2, hc, w0t, w1]
    exact ⟨rfl, rfl⟩

/-- Claim C10 as stated fails. A call on a path that cannot be opened and a call on an
empty file fail for different causes, as the diagnostics printed show, yet they return
the same value to the caller. -/
theorem gray_same_return :
    (gray Env.always sampleFS "randomfilename.bmp").diag = some .OpenError ∧
    (gray Env.always sampleFS "empty.bmp").diag = some .TruncatedError ∧
    (gray Env.always sampleFS "randomfilename.bmp").ret
      = (gray Env.always sampleFS "empty.bmp").ret := by
  decide

/-- Claim C10, amended. Every call of `gray` either succeeds, printing nothing and
returning `EXIT_SUCCESS`, or fails, printing a diagnostic and returning `EXIT_FAILURE`: the
value returned is the same for every cause of failure.  The diagnostic printed names the
cause.  A source that cannot be opened gives `OpenError`.  When the two header records
are allocated, a file shorter than its headers gives `TruncatedError` and a failing
validation check gives the error of the earliest failing check, one of `NotABitmapError`,
`CompressedImageError`, `UnsupportedDepthError` and `InvalidDimensionsError`.  For a file
that passes validation, pixel rows cut short give `TruncatedError` when nothing else
fails, and a header or row write that fails gives `WriteError` when the pixel rows are
there, the allocations succeed and the destination opens.  These seven diagnostics are
pairwise different. -/
theorem gray_return (env : Env) (fs : FS) (p : String) :
    (((gray env fs p).diag = none ∧ (gray env fs p).ret = EXIT_SUCCESS) ∨
      ∃ d, (gray env fs p).diag = some d ∧ (gray env fs p).ret = EXIT_FAILURE) ∧
    (fs p = none → (gray env fs p).rejected .OpenError) ∧
    (∀ x, fs p = some x → env.mallocOk 0 = true ∧ env.mallocOk 1 = true →
      (x.length < 54 → (gray env fs p).rejected .TruncatedError) ∧
      (∀ e later, 54 ≤ x.length → failingChecks x = e :: later →
        (gray env fs p).rejected e ∧
          e ∈ [Diag.NotABitmapError, .CompressedImageError, .UnsupportedDepthError,
            .InvalidDimensionsError]) ∧
      (Valid x → env.serves ("new-" ++ p) (imageHeight x) → ¬ HoldsPixelData x →
        (gray env fs p).rejected .TruncatedError) ∧
      (Valid x → HoldsPixelData x → (∀ k, k < 4 + imageHeight x → env.mallocOk k = true) →
        env.canCreate ("new-" ++ p) = true →
        (∃ k, k < 2 + imageHeight x ∧ env.fwriteOk k = false) →
        (gray env fs p).rejected .WriteError)) ∧
    [Diag.OpenError, .TruncatedError, .NotABitmapError, .CompressedImageError,
      .UnsupportedDepthError, .InvalidDimensionsError, .WriteError].Nodup := by
  refine ⟨?_, ?_, ?_, by decide⟩
  · unfold gray
    split
    · exact Or.inr ⟨_, rfl, rfl⟩
    split
    · exact Or.inr ⟨_, rfl, rfl⟩
    split
    · exact Or.inr ⟨_, rfl, rfl⟩
    split
    · exact Or.inr ⟨_, rfl, rfl⟩
    split
    · exact Or.inr ⟨_, rfl, rfl⟩
    split
    · exact Or.inr ⟨_, rfl, rfl⟩
    split
    · exact Or.inr ⟨_, rfl, rfl⟩
    split
    · exact Or.inr ⟨_, rfl, rfl⟩
    split
    · exact Or.inr ⟨_, rfl, rfl⟩
    split
    · exact Or.inr ⟨_, rfl, rfl⟩
    split
    · exact Or.inr ⟨_, rfl, rfl⟩
    split
    · exact Or.inr ⟨_, rfl, rfl⟩
    · exact Or.inl ⟨rfl, rfl⟩
  · intro h
    simp only [gray, h]
    exact ⟨rfl, rfl⟩
  · intro x hx hm
    refine ⟨fun hl => short_rejected env fs p x hm hx hl, ?_, ?_, ?_⟩
    · intro e later hl hf
      refine ⟨?_, ?_⟩
      · apply validate_some_rejected env fs p x e hm hx hl
        rw [validate_eq_head, hf]
        rfl
      · have hmem : e ∈ failingChecks x := by rw [hf]; exact List.mem_cons_self _ _
        unfold failingChecks checksInOrder at hmem
        simp only [List.mem_map, List.mem_filter, List.mem_cons, List.mem_singleton,
          List.not_mem_nil, or_false] at hmem
        obtain ⟨c, ⟨hc, _⟩, rfl⟩ := hmem
        rcases hc with h | h | h | h | h <;> subst h <;> simp
    · intro hv henv hnd
      have hnot : ¬ holdsRows (imageWidth x) (padding (imageWidth x)) (imageHeight x)
          (x.drop 54).length := by
        rw [← holdsPixelData_iff hv]
        exact hnd
      obtain ⟨out2, hloop⟩ := rowLoop_short (imageWidth_pos hv)
        (rowSize_eq (imageWidth_lt x)) (imageHeight x) 0 (x.drop 54) (x.take 54)
        (serves_rows henv) hnot
      rw [gray_rows env fs p x hx hv (fun j hj => henv.1 j (by omega)) henv.2.1
        ⟨henv.2.2 0 (by omega), henv.2.2 1 (by omega)⟩, hloop]
      exact ⟨rfl, rfl⟩
    · intro hv hd hmall hc hfail
      by_cases hw : env.fwriteOk 0 = false ∨ env.fwriteOk 1 = false
      · exact header_write_fails env fs p x hx hv (fun k hk => hmall k (by omega)) hc hw
      · have w0 : env.fwriteOk 0 = true := by
          cases h : env.fwriteOk 0
          · exact absurd (Or.inl h) hw
          · rfl
        have w1 : env.fwriteOk 1 = true := by
          cases h : env.fwriteOk 1
          · exact absurd (Or.inr h) hw
          · rfl
        obtain ⟨k, hk, hkf⟩ := hfail
        have hk2 : 2 ≤ k := by
          rcases Nat.lt_or_ge k 2 with h | h
          · have : k = 0 ∨ k = 1 := by omega
            rcases this with e | e
            · subst e; rw [w0] at hkf; exact absurd hkf (by decide)
            · subst e; rw [w1] at hkf; exact absurd hkf (by decide)
          · exact h
        obtain ⟨out2, hloop⟩ := rowLoop_write_fails (imageWidth_pos hv)
          (rowSize_eq (imageWidth_lt x)) (imageHeight x) 0 (x.drop 54) (x.take 54)
          (fun j hj => hmall (4 + 0 + j) (by omega))
          ((holdsPixelData_iff hv).mp hd)
          ⟨k - 2, by omega, by
            have e : 2 + 0 + (k - 2) = k := by omega
            rw [e]
            exact hkf⟩
        rw [gray_rows env fs p x hx hv (fun j hj => hmall j (by omega)) hc ⟨w0, w1⟩, hloop]
        exact ⟨rfl, rfl⟩

/-- Witness of `gray_return`: a missing source, an empty file, headers with the type
bytes O, K, a bitmap cut inside its second row and a bitmap whose writes fail are
rejected with five different diagnostics and the same value returned. -/
theorem gray_return_witness :
    (gray Env.always sampleFS "randomfilename.bmp").rejected .OpenError ∧
    (gray Env.always sampleFS "empty.bmp").rejected .TruncatedError ∧
    (gray Env.always (single (headers 79 75 4 2 24 0)) "t.bmp").rejected .NotABitmapError ∧
    (gray Env.always (single truncatedImage) "t.bmp").rejected .TruncatedError ∧
    (gray Env.writeFails sampleFS "a.bmp").rejected .WriteError :=
  ⟨(gray_return Env.always sampleFS "randomfilename.bmp").2.1 (by decide),
    ((gray_return Env.always sampleFS "empty.bmp").2.2.1 [] (by decide) ⟨rfl, rfl⟩).1
      (by decide),
    (((gray_return Env.always (single (headers 79 75 4 2 24 0)) "t.bmp").2.2.1
      (headers 79 75 4 2 24 0) (by decide) ⟨rfl, rfl⟩).2.1 .NotABitmapError []
      (by decide) (by decide)).1,
    ((gray_return Env.always (single truncatedImage) "t.bmp").2.2.1 truncatedImage
      (by decide) ⟨rfl, rfl⟩).2.2.1 (by decide) ⟨fun _ _ => rfl, rfl, fun _ _ => rfl⟩
      (by decide),
    ((gray_return Env.writeFails sampleFS "a.bmp").2.2.1 sampleImage (by decide)
      ⟨rfl, rfl⟩).2.2.2 (by decide) (by decide) (fun _ _ => rfl) rfl
      ⟨0, by decide, rfl⟩⟩

end Gray
